import Mathlib

/-!
# gpup: the upload pipeline of `cli/upload.go`

A shallow embedding of `CLI.upload`, `CLI.findUploadItems` and `CLI.NeedUpload`.

Go strings are modelled as Lean strings, byte slices as lists of naturals below 256.
Everything the file reaches outside itself (the file system, `filepath.Walk`, `crypto/md5`,
`http.NewRequest`, the OAuth2 client, the `photos` service, the cache file) is a field of the
record `Env`; the functions of `upload.go` are translated statement by statement on top of it.
Mutable state (`c.FileHash`, standard output, the cache file) is passed explicitly.
-/

namespace Gpup

/-! ## Pieces of the Go standard library used by `upload.go` -/

/-- The digit table `ldigits` of package fmt, as used by the verb x. -/
def ldigits : List Char := "0123456789abcdef".toList

/-- The call fmt.Sprintf("%x", b) on a byte slice: two lower-case digits per byte,
high nibble first. -/
def sprintfHex : List Nat → List Char
  | [] => []
  | c :: cs => ldigits.getD (c % 256 / 16) '0' :: ldigits.getD (c % 16) '0' :: sprintfHex cs

/-- The table `reverseHexTable` of package encoding/hex: the value of a hexadecimal digit of
either case, `none` for every other character (0xff in the table). -/
def fromHexChar (c : Char) : Option Nat :=
  if 48 ≤ c.toNat ∧ c.toNat ≤ 57 then some (c.toNat - 48)
  else if 97 ≤ c.toNat ∧ c.toNat ≤ 102 then some (c.toNat - 87)
  else if 65 ≤ c.toNat ∧ c.toNat ≤ 70 then some (c.toNat - 55)
  else none

/-- The function hex.DecodeString, on the characters of its argument: pairs of digits are
decoded left to right; an invalid digit or an odd length is an error (`none`: the caller
in `upload` only tests `err == nil`). -/
def DecodeString : List Char → Option (List Nat)
  | [] => some []
  | [_] => none
  | p :: q :: rest =>
    match fromHexChar p, fromHexChar q with
    | some a, some b =>
      match DecodeString rest with
      | some bs => some ((a * 16 + b) :: bs)
      | none => none
    | _, _ => none

/-- The call strings.SplitN(s, ":", 2) for a one-character separator: the text before
the first separator and the text after it, or the whole text alone when there is none. -/
def SplitN (s : List Char) (sep : Char) : List (List Char) :=
  match s.span (fun ch => ch != sep) with
  | (a, []) => [a]
  | (a, _ :: b) => [a, b]

/-- The predicate unicode.IsSpace. -/
def IsSpace (c : Char) : Bool :=
  let n := c.toNat
  (9 ≤ n && n ≤ 13) || n == 32 || n == 133 || n == 160 || n == 5760 ||
  (8192 ≤ n && n ≤ 8202) || n == 8232 || n == 8233 || n == 8239 || n == 8287 || n == 12288

/-- The function strings.TrimSpace: leading and trailing white space removed. -/
def TrimSpace (s : List Char) : List Char :=
  ((s.dropWhile IsSpace).reverse.dropWhile IsSpace).reverse

/-- The function strings.Join. -/
def Join : List String → String → String
  | [], _ => ""
  | [a], _ => a
  | a :: b :: rest, sep => a ++ sep ++ Join (b :: rest) sep

/-- The function strings.HasPrefix. -/
def HasPrefix (s pre : String) : Bool := pre.toList.isPrefixOf s.toList

/-! ## Data model -/

/-- An http.Request as `findUploadItems` builds it: the URL it was made from, the arguments of
`SetBasicAuth` (if called) and the arguments of each `Header.Add`, in call order. -/
structure Request where
  url : String
  basicAuth : Option (String × String)
  header : List (String × String)
  deriving DecidableEq, Repr

/-- The two implementations of photos.UploadItem that `findUploadItems` creates. -/
inductive UploadItem where
  | FileUploadItem (name : String)
  | HTTPUploadItem (request : Request)
  deriving DecidableEq, Repr

/-- The type photos.AddResult, reduced to the field `upload` reads. -/
structure AddResult where
  Error : Option String
  deriving DecidableEq, Repr

/-- One invocation of the callback by filepath.Walk: the path, whether
`info.Mode().IsRegular()` holds, and the error handed to the callback, if any. -/
structure WalkEntry where
  name : String
  regular : Bool
  err : Option String
  deriving DecidableEq, Repr

/-- The outcome of a Go function that can fail: a normal return, a returned `error` with its
text, or a run-time panic (index out of range). -/
inductive Result (α : Type) where
  | ok (a : α)
  | error (msg : String)
  | panic
  deriving DecidableEq, Repr

/-- A call to the remote photos service. -/
inductive RemoteCall where
  | AddToAlbum (title : String) (items : List UploadItem)
  | CreateAlbum (title : String) (items : List UploadItem)
  | AddToLibrary (items : List UploadItem)
  deriving DecidableEq, Repr

/-- Modelled from the spec: the declaration of the struct `CLI` is not in `upload.go`; these
are the fields the file uses. `FileHash` is the in-memory ledger, "a set of hash strings":
the code only tests whether a key is present and only ever stores `true`. -/
structure CLI where
  Paths : List String
  AlbumTitle : String
  NewAlbum : String
  RequestBasicAuth : String
  RequestHeaders : List String
  CacheName : String
  FileHash : Finset String
  deriving DecidableEq

/-- Everything outside `upload.go` that the code calls. -/
structure Env where
  /-- The calls os.Open followed by io.Copy: the bytes of the file, `none` when either fails. -/
  readFile : String → Option (List Nat)
  /-- The digest of crypto/md5 (`h.Sum(nil)` after the bytes were written to `h`). -/
  md5sum : List Nat → List Nat
  /-- The callback invocations filepath.Walk makes for a root, in order, for a callback that
  returns nil. -/
  walk : String → List WalkEntry
  /-- The error text of http.NewRequest("GET", arg, nil), `none` when it succeeds. -/
  newRequestErr : String → Option String
  /-- The error of `c.newOAuth2Client`, `none` when it succeeds. -/
  oauthErr : Option String
  /-- The error of photos.New, `none` when it succeeds. -/
  photosErr : Option String
  /-- The results and error of `service.AddToAlbum`. -/
  AddToAlbum : String → List UploadItem → List AddResult × Option String
  /-- The results and error of `service.CreateAlbum`. -/
  CreateAlbum : String → List UploadItem → List AddResult × Option String
  /-- The results of `service.AddToLibrary`. -/
  AddToLibrary : List UploadItem → List AddResult
  /-- Whether os.OpenFile on the cache file (append, create, write-only) succeeds. -/
  openCache : String → Bool
  /-- The `String()` form of an item, as printed by the verb s. -/
  describe : UploadItem → String

/-- What a run of `upload` does to the outside world. -/
structure Effects where
  /-- The line written with log.Printf and the lines written to os.Stderr. -/
  stderr : List String
  /-- The lines written with fmt.Printf. -/
  stdout : List String
  /-- The calls made to the remote service. -/
  calls : List RemoteCall
  /-- Whether os.OpenFile was called on the cache file. -/
  cacheOpened : Bool
  /-- The bytes written to the cache file, in order. -/
  appended : List Nat
  deriving DecidableEq, Repr

/-! ## `upload.go` -/

/-- The method `CLI.NeedUpload` (lines 120-137): the two results and the receiver afterwards. -/
def NeedUpload (env : Env) (c : CLI) (name : String) : (Bool × String) × CLI :=
  match env.readFile name with
  | none => ((false, ""), c)
  | some bytes =>
    let md5 := String.mk (sprintfHex (env.md5sum bytes))
    if md5 ∈ c.FileHash then ((false, md5), c)
    else ((true, md5), { c with FileHash := insert md5 c.FileHash })

/-- Lines 85-88: the basic-auth credential, when set, is split at its first colon and both
parts are passed to `SetBasicAuth`; `kv[1]` on a one-element slice panics (`none`). -/
def setBasicAuth (c : CLI) (r : Request) : Option Request :=
  if c.RequestBasicAuth ≠ "" then
    let kv := SplitN c.RequestBasicAuth.toList ':'
    match kv[0]?, kv[1]? with
    | some k, some v => some { r with basicAuth := some (String.mk k, String.mk v) }
    | _, _ => none
  else some r

/-- Lines 89-92: each header string is split at its first colon and both parts, trimmed, are
passed to `Header.Add`; `kv[1]` on a one-element slice panics (`none`). -/
def addHeaders : List String → Request → Option Request
  | [], r => some r
  | header :: rest, r =>
    let kv := SplitN header.toList ':'
    match kv[0]?, kv[1]? with
    | some k, some v =>
      addHeaders rest
        { r with header := r.header ++ [(String.mk (TrimSpace k), String.mk (TrimSpace v))] }
    | _, _ => none

/-- The state of the loops of `findUploadItems`: `uploadItems`, `md5s` and the receiver. -/
abbrev FindState := List UploadItem × List String × CLI

/-- Lines 99-112: filepath.Walk with the callback of `findUploadItems`, over the callback
invocations of one root. The walk stops at the first entry that carries an error and
returns it; a regular file is appended when `NeedUpload` says so; anything else is skipped. -/
def walkFiles (env : Env) : List WalkEntry → FindState → Option String × FindState
  | [], st => (none, st)
  | e :: es, (uploadItems, md5s, c) =>
    match e.err with
    | some err => (some err, (uploadItems, md5s, c))
    | none =>
      if e.regular then
        match NeedUpload env c e.name with
        | ((true, md5), c1) =>
          walkFiles env es (uploadItems ++ [UploadItem.FileUploadItem e.name], md5s ++ [md5], c1)
        | ((false, _), c1) => walkFiles env es (uploadItems, md5s, c1)
      else walkFiles env es (uploadItems, md5s, c)

/-- Lines 78-117: the loop of `findUploadItems` over the remaining arguments. The receiver is
returned too, since `NeedUpload` changes `c.FileHash` in place. -/
def findLoop (env : Env) : List String → FindState →
    Result (List UploadItem × List String) × CLI
  | [], (uploadItems, md5s, c) => (Result.ok (uploadItems, md5s), c)
  | arg :: args, (uploadItems, md5s, c) =>
    if HasPrefix arg "http://" || HasPrefix arg "https://" then
      match env.newRequestErr arg with
      | some err => (Result.error ("Could not parse URL: " ++ err), c)
      | none =>
        match setBasicAuth c { url := arg, basicAuth := none, header := [] } with
        | none => (Result.panic, c)
        | some r1 =>
          match addHeaders c.RequestHeaders r1 with
          | none => (Result.panic, c)
          | some r =>
            findLoop env args (uploadItems ++ [UploadItem.HTTPUploadItem r], md5s ++ [""], c)
    else
      match walkFiles env (env.walk arg) (uploadItems, md5s, c) with
      | (some err, (_, _, c1)) =>
        (Result.error ("Error while finding files in " ++ arg ++ ": " ++ err), c1)
      | (none, st) => findLoop env args st

/-- The method `CLI.findUploadItems` (lines 74-118). -/
def findUploadItems (env : Env) (c : CLI) : Result (List UploadItem × List String) × CLI :=
  findLoop env c.Paths ([], [], c)

/-- No effect at all. -/
def Effects.none : Effects :=
  { stderr := [], stdout := [], calls := [], cacheOpened := false, appended := [] }

/-- Lines 59-70: the reporting loop of `upload` from index `i` on, over the remaining results.
`f` tells whether the cache file was opened. Indexing `uploadItems` or `md5s` out of range
panics; `md5s[i]` is only read when `f` is not nil. -/
def reportLoop (env : Env) (f : Bool) (uploadItems : List UploadItem) (md5s : List String) :
    Nat → List AddResult → Effects → Result Unit × Effects
  | _, [], eff => (Result.ok (), eff)
  | i, r :: rs, eff =>
    match uploadItems[i]? with
    | none => (Result.panic, eff)
    | some item =>
      match r.Error with
      | some e =>
        reportLoop env f uploadItems md5s (i + 1) rs
          { eff with stdout := eff.stdout ++
              ["#" ++ toString (i + 1) ++ ": " ++ env.describe item ++ ": " ++ e ++ "\n"] }
      | none =>
        let eff1 := { eff with stdout := eff.stdout ++
              ["#" ++ toString (i + 1) ++ ": " ++ env.describe item ++ ": OK\n"] }
        if f then
          match md5s[i]? with
          | none => (Result.panic, eff1)
          | some md5 =>
            if md5 ≠ "" then
              match DecodeString md5.toList with
              | some md5hash =>
                reportLoop env f uploadItems md5s (i + 1) rs
                  { eff1 with appended := eff1.appended ++ md5hash }
              | none => reportLoop env f uploadItems md5s (i + 1) rs eff1
            else reportLoop env f uploadItems md5s (i + 1) rs eff1
        else reportLoop env f uploadItems md5s (i + 1) rs eff1

/-- Lines 30-32: the listing written to os.Stderr, one line per item, numbered from `i + 1`. -/
def listing (env : Env) : Nat → List UploadItem → List String
  | _, [] => []
  | i, item :: rest =>
    ("#" ++ toString (i + 1) ++ ": " ++ env.describe item ++ "\n") :: listing env (i + 1) rest

/-- Lines 42-50: the switch that picks the remote operation: the results, the error and the
call that was made. -/
def dispatch (env : Env) (c : CLI) (uploadItems : List UploadItem) :
    (List AddResult × Option String) × RemoteCall :=
  if c.AlbumTitle ≠ "" then
    (env.AddToAlbum c.AlbumTitle uploadItems, RemoteCall.AddToAlbum c.AlbumTitle uploadItems)
  else if c.NewAlbum ≠ "" then
    (env.CreateAlbum c.NewAlbum uploadItems, RemoteCall.CreateAlbum c.NewAlbum uploadItems)
  else
    ((env.AddToLibrary uploadItems, none), RemoteCall.AddToLibrary uploadItems)

/-- The method `CLI.upload` (lines 18-72): its result, its effects and the receiver
afterwards. -/
def upload (env : Env) (c : CLI) : Result Unit × Effects × CLI :=
  if c.Paths.length = 0 then (Result.error "Nothing to upload", Effects.none, c)
  else
    match findUploadItems env c with
    | (Result.error err, c1) => (Result.error err, Effects.none, c1)
    | (Result.panic, c1) => (Result.panic, Effects.none, c1)
    | (Result.ok (uploadItems, md5s), c1) =>
      if uploadItems.length = 0 then
        (Result.error ("Nothing to upload in " ++ Join c1.Paths ", "), Effects.none, c1)
      else
        let eff0 : Effects :=
          { Effects.none with
            stderr := ("The following " ++ toString uploadItems.length ++
              " items will be uploaded:") :: listing env 0 uploadItems }
        match env.oauthErr with
        | some err => (Result.error err, eff0, c1)
        | none =>
          match env.photosErr with
          | some err => (Result.error err, eff0, c1)
          | none =>
            match dispatch env c1 uploadItems with
            | ((_, some err), call) => (Result.error err, { eff0 with calls := [call] }, c1)
            | ((results, none), call) =>
              let f := env.openCache c1.CacheName
              let eff1 := { eff0 with calls := [call], cacheOpened := true }
              let (res, eff) := reportLoop env f uploadItems md5s 0 results eff1
              (res, eff, c1)

/-! ## The specification's words, as definitions -/

/-- The hash `NeedUpload` computes for a walk entry: the lower-case hex digest of its bytes
when it is a regular file that can be read, nothing otherwise. -/
def entryHash (env : Env) (e : WalkEntry) : Option String :=
  if e.regular then
    (env.readFile e.name).map (fun bytes => String.mk (sprintfHex (env.md5sum bytes)))
  else none

/-- Whether an input is a URL: the test of line 80. -/
def isURL (arg : String) : Bool := HasPrefix arg "http://" || HasPrefix arg "https://"

/-- The entries visited for a list of inputs: the callback invocations of every file-system
root among them, in argument order (a URL input is not walked). -/
def visitedOf (env : Env) (args : List String) : List WalkEntry :=
  (args.filter (fun arg => !isURL arg)).flatMap env.walk

/-- The entries visited by one invocation. -/
def visited (env : Env) (c : CLI) : List WalkEntry := visitedOf env c.Paths

/-- The entry visited at position `k` is to be emitted: it has a hash, the hash is not in the
ledger `L` the invocation started with, and no entry visited before it has the same hash. -/
def emitted (env : Env) (L : Finset String) (visited : List WalkEntry) (k : Nat) : Bool :=
  match (visited[k]?).bind (entryHash env) with
  | none => false
  | some h => decide (h ∉ L) && decide (some h ∉ (visited.take k).map (entryHash env))

/-- The bytes the reporting pass is to append for hashes and results aligned by position: the
decoded hash of every position whose result has no error and whose hash is non-empty and
valid hex, in order. -/
def persisted : List String → List AddResult → List Nat
  | md5 :: md5s, r :: rs =>
    (if r.Error = none ∧ md5 ≠ "" then (DecodeString md5.toList).getD [] else []) ++
      persisted md5s rs
  | _, _ => []

/-- The part of a string before its first colon (the whole string when it has none). -/
def beforeColon (s : String) : List Char := s.toList.takeWhile (fun ch => ch != ':')

/-- The part of a string after its first colon (empty when it has none). -/
def afterColon (s : String) : List Char := (s.toList.dropWhile (fun ch => ch != ':')).tail

/-- The user and password taken from a credential: none when the credential is empty, else
the parts before and after its first colon. -/
def credentials (cred : String) : Option (String × String) :=
  if cred = "" then none else some (String.mk (beforeColon cred), String.mk (afterColon cred))

/-- The key and value taken from a header string: the parts before and after its first colon,
both with surrounding white space removed. -/
def headerPair (header : String) : String × String :=
  (String.mk (TrimSpace (beforeColon header)), String.mk (TrimSpace (afterColon header)))

/-- The request for a URL input, as the specification describes it. -/
def requestFor (c : CLI) (u : String) : Request :=
  { url := u, basicAuth := credentials c.RequestBasicAuth,
    header := c.RequestHeaders.map headerPair }

/-- What one input contributes to the output. A URL contributes one remote-fetch item with
the empty hash. A file-system root whose first entry is number `off` among the entries
`vis` visited by the invocation contributes, in walk order, those of its entries that are
emitted, each with its hash. -/
def contributionAt (env : Env) (c : CLI) (L : Finset String) (vis : List WalkEntry)
    (off : Nat) (arg : String) : List (UploadItem × String) :=
  if isURL arg then [(UploadItem.HTTPUploadItem (requestFor c arg), "")]
  else
    ((List.range (env.walk arg).length).filter (fun i => emitted env L vis (off + i))).filterMap
      (fun i => ((env.walk arg)[i]?).bind (fun e =>
        (entryHash env e).map (fun h => (UploadItem.FileUploadItem e.name, h))))

/-- What input number `j` of the command line contributes to the output. -/
def contribution (env : Env) (c : CLI) (j : Nat) : List (UploadItem × String) :=
  match c.Paths[j]? with
  | none => []
  | some arg =>
    contributionAt env c c.FileHash (visited env c) (visitedOf env (c.Paths.take j)).length arg

/-- Whether an item is a local-file item. -/
def isFileItem : UploadItem → Bool
  | UploadItem.FileUploadItem _ => true
  | UploadItem.HTTPUploadItem _ => false

/-- Whether a result is a returned error. -/
def Result.isError {α : Type} : Result α → Bool
  | Result.error _ => true
  | _ => false

/-- A digest function as crypto/md5 provides one: 16 bytes for every input. -/
def DigestOK (env : Env) : Prop :=
  ∀ bytes, (env.md5sum bytes).length = 16 ∧ ∀ b ∈ env.md5sum bytes, b < 256

/-! ## Auxiliary definitions for the proofs -/

/-- The receiver `c1` differs from `c` in the ledger only. -/
def Frame (c c1 : CLI) : Prop := c1 = { c with FileHash := c1.FileHash }

/-- The ledger after the entries `es` were visited, starting from `L`. -/
def ledgerAfter (env : Env) (L : Finset String) : List WalkEntry → Finset String
  | [] => L
  | e :: es =>
    match entryHash env e with
    | none => ledgerAfter env L es
    | some h => ledgerAfter env (insert h L) es

/-- The names and hashes kept from the entries `es`, starting from the ledger `L`. -/
def dedup (env : Env) (L : Finset String) : List WalkEntry → List (String × String)
  | [] => []
  | e :: es =>
    match entryHash env e with
    | none => dedup env L es
    | some h => if h ∈ L then dedup env L es else (e.name, h) :: dedup env (insert h L) es

/-- The items and hashes resolved from the inputs `args`, starting from the ledger `L`. -/
def resolve (env : Env) (c : CLI) (L : Finset String) : List String → List (UploadItem × String)
  | [] => []
  | arg :: rest =>
    if isURL arg then
      (UploadItem.HTTPUploadItem (requestFor c arg), "") :: resolve env c L rest
    else
      (dedup env L (env.walk arg)).map (fun p => (UploadItem.FileUploadItem p.1, p.2)) ++
        resolve env c (ledgerAfter env L (env.walk arg)) rest

/-- An item and the hash stored at the same position belong together: a URL item has the
empty hash, a file item the hex digest that `NeedUpload` returned for its path. -/
def Aligned (env : Env) (item : UploadItem) (md5 : String) : Prop :=
  match item with
  | UploadItem.HTTPUploadItem _ => md5 = ""
  | UploadItem.FileUploadItem p =>
    ∃ bytes c0, env.readFile p = some bytes ∧
      md5 = String.mk (sprintfHex (env.md5sum bytes)) ∧ (NeedUpload env c0 p).1 = (true, md5)

/-! ## MD5 and a concrete environment (used to instantiate the theorems) -/

/-- The sine table of MD5 (RFC 1321, section 3.4). -/
def md5K : List Nat := [
  0xd76aa478, 0xe8c7b756, 0x242070db, 0xc1bdceee, 0xf57c0faf, 0x4787c62a, 0xa8304613, 0xfd469501,
  0x698098d8, 0x8b44f7af, 0xffff5bb1, 0x895cd7be, 0x6b901122, 0xfd987193, 0xa679438e, 0x49b40821,
  0xf61e2562, 0xc040b340, 0x265e5a51, 0xe9b6c7aa, 0xd62f105d, 0x02441453, 0xd8a1e681, 0xe7d3fbc8,
  0x21e1cde6, 0xc33707d6, 0xf4d50d87, 0x455a14ed, 0xa9e3e905, 0xfcefa3f8, 0x676f02d9, 0x8d2a4c8a,
  0xfffa3942, 0x8771f681, 0x6d9d6122, 0xfde5380c, 0xa4beea44, 0x4bdecfa9, 0xf6bb4b60, 0xbebfbc70,
  0x289b7ec6, 0xeaa127fa, 0xd4ef3085, 0x04881d05, 0xd9d4d039, 0xe6db99e5, 0x1fa27cf8, 0xc4ac5665,
  0xf4292244, 0x432aff97, 0xab9423a7, 0xfc93a039, 0x655b59c3, 0x8f0ccc92, 0xffeff47d, 0x85845dd1,
  0x6fa87e4f, 0xfe2ce6e0, 0xa3014314, 0x4e0811a1, 0xf7537e82, 0xbd3af235, 0x2ad7d2bb, 0xeb86d391]

/-- The per-round shift amounts of MD5. -/
def md5S : List Nat := [
  7, 12, 17, 22, 7, 12, 17, 22, 7, 12, 17, 22, 7, 12, 17, 22,
  5, 9, 14, 20, 5, 9, 14, 20, 5, 9, 14, 20, 5, 9, 14, 20,
  4, 11, 16, 23, 4, 11, 16, 23, 4, 11, 16, 23, 4, 11, 16, 23,
  6, 10, 15, 21, 6, 10, 15, 21, 6, 10, 15, 21, 6, 10, 15, 21]

/-- Rotation of a 32-bit word to the left. -/
def rotl32 (x s : Nat) : Nat := (x * 2 ^ s % 2 ^ 32) + x / 2 ^ (32 - s)

/-- Complement of a 32-bit word. -/
def not32 (x : Nat) : Nat := 2 ^ 32 - 1 - x

/-- The little-endian bytes of a word, `n` of them. -/
def leBytes : Nat → Nat → List Nat
  | 0, _ => []
  | n + 1, x => x % 256 :: leBytes n (x / 256)

/-- The little-endian word made of a list of bytes. -/
def leWord : List Nat → Nat
  | [] => 0
  | b :: bs => b + 256 * leWord bs

/-- The message with the padding of MD5: a one bit, zeros up to 56 modulo 64, and the length
in bits as a 64-bit little-endian number. -/
def md5Pad (msg : List Nat) : List Nat :=
  msg ++ [0x80] ++ List.replicate ((119 - msg.length % 64) % 64) 0 ++
    leBytes 8 (8 * msg.length % 2 ^ 64)

/-- The first `n` blocks of `k` elements of a list. -/
def blocks (k : Nat) : Nat → List Nat → List (List Nat)
  | 0, _ => []
  | n + 1, l => l.take k :: blocks k n (l.drop k)

/-- One of the 64 operations of MD5 on the state (a, b, c, d). -/
def md5Step (m : List Nat) (st : Nat × Nat × Nat × Nat) (i : Nat) : Nat × Nat × Nat × Nat :=
  let (a, b, c, d) := st
  let f :=
    if i < 16 then (b &&& c) ||| (not32 b &&& d)
    else if i < 32 then (d &&& b) ||| (not32 d &&& c)
    else if i < 48 then b ^^^ c ^^^ d
    else c ^^^ (b ||| not32 d)
  let g :=
    if i < 16 then i
    else if i < 32 then (5 * i + 1) % 16
    else if i < 48 then (3 * i + 5) % 16
    else 7 * i % 16
  let x := (f + a + md5K.getD i 0 + m.getD g 0) % 2 ^ 32
  (d, (b + rotl32 x (md5S.getD i 0)) % 2 ^ 32, b, c)

/-- The compression of one 64-byte block into the state. -/
def md5Block (st : Nat × Nat × Nat × Nat) (block : List Nat) : Nat × Nat × Nat × Nat :=
  let m := (blocks 4 16 block).map leWord
  let (a, b, c, d) := (List.range 64).foldl (md5Step m) st
  ((st.1 + a) % 2 ^ 32, (st.2.1 + b) % 2 ^ 32, (st.2.2.1 + c) % 2 ^ 32, (st.2.2.2 + d) % 2 ^ 32)

/-- The MD5 digest of a byte string (RFC 1321): 16 bytes. -/
def md5Sum (msg : List Nat) : List Nat :=
  let p := md5Pad msg
  let (a, b, c, d) :=
    (blocks 64 (p.length / 64) p).foldl md5Block (0x67452301, 0xefcdab89, 0x98badcfe, 0x10325476)
  leBytes 4 a ++ leBytes 4 b ++ leBytes 4 c ++ leBytes 4 d

/-- The bytes X of the files `a.jpg` and `b.jpg` of Scenario A. -/
def bytesX : List Nat := [1, 2, 3]

/-- The bytes Y of the file `c.jpg` of Scenario A. -/
def bytesY : List Nat := [4, 5]

/-- The environment of Scenario A: the directory `/tmp/dirA` with `a.jpg` (bytes X), `b.jpg`
(bytes X) and `c.jpg` (bytes Y), and a directory `/tmp/dirB` that holds only the
subdirectory `sub`; any other root cannot be walked; http.NewRequest rejects
a URL that holds an ASCII control character (the first check of url.Parse); the remote
service accepts every item; the cache file can be opened. -/
def scenarioEnv : Env where
  readFile := fun name =>
    if name = "/tmp/dirA/a.jpg" then some bytesX
    else if name = "/tmp/dirA/b.jpg" then some bytesX
    else if name = "/tmp/dirA/c.jpg" then some bytesY
    else none
  md5sum := md5Sum
  walk := fun root =>
    if root = "/tmp/dirA" then
      [⟨"/tmp/dirA", false, none⟩, ⟨"/tmp/dirA/a.jpg", true, none⟩,
       ⟨"/tmp/dirA/b.jpg", true, none⟩, ⟨"/tmp/dirA/c.jpg", true, none⟩]
    else if root = "/tmp/dirB" then [⟨"/tmp/dirB", false, none⟩, ⟨"/tmp/dirB/sub", false, none⟩]
    else [⟨root, false, some ("lstat " ++ root ++ ": no such file or directory")⟩]
  newRequestErr := fun arg =>
    if arg.toList.any (fun ch => ch.toNat < 32 || ch.toNat == 127) then
      some "net/url: invalid control character in URL"
    else none
  oauthErr := none
  photosErr := none
  AddToAlbum := fun _ items => (items.map (fun _ => ⟨none⟩), none)
  CreateAlbum := fun _ items => (items.map (fun _ => ⟨none⟩), none)
  AddToLibrary := fun items => items.map (fun _ => ⟨none⟩)
  openCache := fun _ => true
  describe := fun item =>
    match item with
    | UploadItem.FileUploadItem name => name
    | UploadItem.HTTPUploadItem r => r.url

/-- A command line whose only input is a URL that holds a tab character. -/
def ctlCLI : CLI where
  Paths := ["http://example.com/a\tb.jpg"]
  AlbumTitle := ""
  NewAlbum := ""
  RequestBasicAuth := ""
  RequestHeaders := []
  CacheName := "/tmp/gpup.cache"
  FileHash := ∅

/-- A command line with a URL input and a basic-auth credential that has no colon. -/
def noColonCLI : CLI where
  Paths := ["http://example.com/a.jpg"]
  AlbumTitle := ""
  NewAlbum := ""
  RequestBasicAuth := "user"
  RequestHeaders := []
  CacheName := "/tmp/gpup.cache"
  FileHash := ∅

/-- Four items for a reporting pass. -/
def reportItems : List UploadItem :=
  [UploadItem.FileUploadItem "a", UploadItem.FileUploadItem "b",
    UploadItem.FileUploadItem "c", UploadItem.HTTPUploadItem ⟨"http://d", none, []⟩]

/-- Their hashes: a valid one, one whose upload fails, a malformed one and an empty one. -/
def reportHashes : List String := ["0aff", "0b", "xyz", ""]

/-- Their results: the second upload failed with an error. -/
def reportResults : List AddResult := [⟨none⟩, ⟨some "quota"⟩, ⟨none⟩, ⟨none⟩]

/-- The command line of Scenario A: the single input `/tmp/dirA`, no album, an empty ledger. -/
def scenarioCLI : CLI where
  Paths := ["/tmp/dirA"]
  AlbumTitle := ""
  NewAlbum := ""
  RequestBasicAuth := ""
  RequestHeaders := []
  CacheName := "/tmp/gpup.cache"
  FileHash := ∅

/-- The command line of Scenario A with both album flags set. -/
def albumCLI : CLI := { scenarioCLI with AlbumTitle := "Holiday", NewAlbum := "Other" }

/-- The command line whose single input is a directory that holds only a subdirectory. -/
def emptyDirCLI : CLI := { scenarioCLI with Paths := ["/tmp/dirB"] }

/-- The command line of Scenario B: Scenario A again, the ledger now holding both hashes. -/
def scenarioBCLI : CLI :=
  { scenarioCLI with
    FileHash := {"5289df737df57326fcdd22597afb1fac", "fba282cd5faca1f7619e4b7969a27f66"} }

/-- The environment of Scenario A, except that add-to-album and create-album fail as a whole
(while still handing back per-item results). -/
def failingEnv : Env :=
  { scenarioEnv with
    AddToAlbum := fun _ items => (items.map (fun _ => ⟨none⟩), some "album not found")
    CreateAlbum := fun _ items => (items.map (fun _ => ⟨none⟩), some "album not created") }

/-- A command line that mixes URL inputs (one of them twice) with the root `/tmp/dirA` (also
twice), with a credential and a header. -/
def mixedCLI : CLI :=
  { scenarioCLI with
    Paths := ["http://example.com/a.jpg", "/tmp/dirA", "https://example.com/b.jpg",
      "/tmp/dirA", "http://example.com/a.jpg"]
    RequestBasicAuth := "user:pa:ss"
    RequestHeaders := ["X-Token :  a:b "] }

/-- The items resolved from the mixed command line. -/
def mixedItems : List UploadItem :=
  [UploadItem.HTTPUploadItem
      ⟨"http://example.com/a.jpg", some ("user", "pa:ss"), [("X-Token", "a:b")]⟩,
    UploadItem.FileUploadItem "/tmp/dirA/a.jpg", UploadItem.FileUploadItem "/tmp/dirA/c.jpg",
    UploadItem.HTTPUploadItem
      ⟨"https://example.com/b.jpg", some ("user", "pa:ss"), [("X-Token", "a:b")]⟩,
    UploadItem.HTTPUploadItem
      ⟨"http://example.com/a.jpg", some ("user", "pa:ss"), [("X-Token", "a:b")]⟩]

/-- The hashes resolved from the mixed command line. -/
def mixedHashes : List String :=
  ["", "5289df737df57326fcdd22597afb1fac", "fba282cd5faca1f7619e4b7969a27f66", "", ""]

/-- The items resolved in Scenario A. -/
def scenarioItems : List UploadItem :=
  [UploadItem.FileUploadItem "/tmp/dirA/a.jpg", UploadItem.FileUploadItem "/tmp/dirA/c.jpg"]

/-- The hashes resolved in Scenario A. -/
def scenarioHashes : List String :=
  ["5289df737df57326fcdd22597afb1fac", "fba282cd5faca1f7619e4b7969a27f66"]

/-! ## Theorems -/

theorem fromHexChar_ldigits (n : Nat) (h : n < 16) :
    fromHexChar (ldigits.getD n '0') = some n := by
  interval_cases n <;> decide

theorem ldigits_mem (n : Nat) (h : n < 16) : ldigits.getD n '0' ∈ ldigits := by
  interval_cases n <;> decide

theorem sprintfHex_length (bs : List Nat) : (sprintfHex bs).length = 2 * bs.length := by
  induction bs with
  | nil => rfl
  | cons b bs ih => simp [sprintfHex, ih]; omega

theorem sprintfHex_mem (bs : List Nat) : ∀ ch ∈ sprintfHex bs, ch ∈ ldigits := by
  induction bs with
  | nil => simp [sprintfHex]
  | cons b bs ih =>
    intro ch hch
    simp only [sprintfHex, List.mem_cons] at hch
    rcases hch with h | h | h
    · rw [h]; exact ldigits_mem _ (by omega)
    · rw [h]; exact ldigits_mem _ (by omega)
    · exact ih ch h

theorem DecodeString_sprintfHex (bs : List Nat) (hb : ∀ b ∈ bs, b < 256) :
    DecodeString (sprintfHex bs) = some bs := by
  induction bs with
  | nil => rfl
  | cons b bs ih =>
    have hb0 : b < 256 := hb b (List.mem_cons_self _ _)
    have ih1 := ih (fun x hx => hb x (List.mem_cons_of_mem _ hx))
    simp only [sprintfHex, DecodeString]
    rw [fromHexChar_ldigits _ (by omega), fromHexChar_ldigits _ (by omega), ih1]
    simp only [Option.some.injEq, List.cons.injEq, and_true]
    omega

/-- C1: `NeedUpload` returns (false, "") and leaves the receiver unchanged when the file
cannot be opened or read; otherwise, with h the lower-case hex digest of the file's bytes, it
returns (true, h) when h is not in the ledger and (false, h) when it is, and the ledger
afterwards is exactly the old ledger with h added (nothing else about the receiver changes). -/
theorem NeedUpload_contract (env : Env) (c : CLI) (name : String) :
    match env.readFile name with
    | none => NeedUpload env c name = ((false, ""), c)
    | some bytes =>
      NeedUpload env c name =
        ((decide (String.mk (sprintfHex (env.md5sum bytes)) ∉ c.FileHash),
          String.mk (sprintfHex (env.md5sum bytes))),
         { c with FileHash := c.FileHash ∪ {String.mk (sprintfHex (env.md5sum bytes))} }) ∧
      ∀ ch ∈ sprintfHex (env.md5sum bytes), ch ∈ "0123456789abcdef".toList := by
  cases hr : env.readFile name with
  | none => simp [NeedUpload, hr]
  | some bytes =>
    refine ⟨?_, sprintfHex_mem _⟩
    by_cases hm : String.mk (sprintfHex (env.md5sum bytes)) ∈ c.FileHash
    · have hu : c.FileHash ∪ {String.mk (sprintfHex (env.md5sum bytes))} = c.FileHash := by
        ext x
        simp only [Finset.mem_union, Finset.mem_singleton]
        constructor
        · rintro (h | h)
          · exact h
          · rw [h]; exact hm
        · intro h; exact Or.inl h
      rw [hu]
      simp [NeedUpload, hr, hm]
    · have hu : c.FileHash ∪ {String.mk (sprintfHex (env.md5sum bytes))} =
          insert (String.mk (sprintfHex (env.md5sum bytes))) c.FileHash := by
        ext x
        simp only [Finset.mem_union, Finset.mem_singleton, Finset.mem_insert]
        tauto
      simp [NeedUpload, hr, hm, hu]

/-! ### Frame: only the ledger changes -/

theorem Frame.refl (c : CLI) : Frame c c := by
  cases c; rfl

theorem Frame.trans {c c1 c2 : CLI} (h1 : Frame c c1) (h2 : Frame c1 c2) : Frame c c2 := by
  unfold Frame at *
  rw [h2]
  conv_lhs => rw [h1]

theorem Frame.flags {c c1 : CLI} (h : Frame c c1) :
    c1.Paths = c.Paths ∧ c1.AlbumTitle = c.AlbumTitle ∧ c1.NewAlbum = c.NewAlbum ∧
      c1.CacheName = c.CacheName ∧ c1.RequestBasicAuth = c.RequestBasicAuth ∧
      c1.RequestHeaders = c.RequestHeaders := by
  unfold Frame at h
  rw [h]
  exact ⟨rfl, rfl, rfl, rfl, rfl, rfl⟩

theorem NeedUpload_eq (env : Env) (c : CLI) (name : String) :
    NeedUpload env c name =
      match (env.readFile name).map (fun bytes => String.mk (sprintfHex (env.md5sum bytes))) with
      | none => ((false, ""), c)
      | some h =>
        if h ∈ c.FileHash then ((false, h), c)
        else ((true, h), { c with FileHash := insert h c.FileHash }) := by
  cases hr : env.readFile name <;> simp [NeedUpload, hr]

theorem NeedUpload_frame (env : Env) (c : CLI) (name : String) :
    Frame c (NeedUpload env c name).2 := by
  rw [NeedUpload_eq]
  cases (env.readFile name).map (fun bytes => String.mk (sprintfHex (env.md5sum bytes))) with
  | none => exact Frame.refl c
  | some h =>
    by_cases hm : h ∈ c.FileHash
    · simp only [hm, if_true]; exact Frame.refl c
    · simp only [hm, if_false]; rfl

theorem walkFiles_frame (env : Env) (es : List WalkEntry) :
    ∀ (uploadItems : List UploadItem) (md5s : List String) (c : CLI),
      Frame c (walkFiles env es (uploadItems, md5s, c)).2.2.2 := by
  induction es with
  | nil => intro _ _ c; exact Frame.refl c
  | cons e es ih =>
    intro uploadItems md5s c
    cases he : e.err with
    | some err => simp only [walkFiles, he]; exact Frame.refl c
    | none =>
      by_cases hreg : e.regular = true
      · have hf := NeedUpload_frame env c e.name
        rcases hn : NeedUpload env c e.name with ⟨⟨b, md5⟩, c1⟩
        rw [hn] at hf
        cases b
        · simp only [walkFiles, he, hreg, if_true, hn]
          exact Frame.trans hf (ih _ _ _)
        · simp only [walkFiles, he, hreg, if_true, hn]
          exact Frame.trans hf (ih _ _ _)
      · simp only [walkFiles, he, hreg]
        exact ih _ _ _

theorem findLoop_frame (env : Env) (args : List String) :
    ∀ (uploadItems : List UploadItem) (md5s : List String) (c : CLI),
      Frame c (findLoop env args (uploadItems, md5s, c)).2 := by
  induction args with
  | nil => intro _ _ c; exact Frame.refl c
  | cons arg args ih =>
    intro uploadItems md5s c
    by_cases hp : (HasPrefix arg "http://" || HasPrefix arg "https://") = true
    · cases h1 : env.newRequestErr arg with
      | some err => simp only [findLoop, hp, if_true, h1]; exact Frame.refl c
      | none =>
        cases h2 : setBasicAuth c { url := arg, basicAuth := none, header := [] } with
        | none => simp only [findLoop, hp, if_true, h1, h2]; exact Frame.refl c
        | some r1 =>
          cases h3 : addHeaders c.RequestHeaders r1 with
          | none => simp only [findLoop, hp, if_true, h1, h2, h3]; exact Frame.refl c
          | some r => simp only [findLoop, hp, if_true, h1, h2, h3]; exact ih _ _ _
    · simp only [findLoop, hp]
      have hf := walkFiles_frame env (env.walk arg) uploadItems md5s c
      rcases hw : walkFiles env (env.walk arg) (uploadItems, md5s, c) with ⟨r, a, b, c1⟩
      rw [hw] at hf
      cases r with
      | some err => exact hf
      | none => exact Frame.trans hf (ih _ _ _)

theorem findUploadItems_frame (env : Env) (c : CLI) : Frame c (findUploadItems env c).2 :=
  findLoop_frame env c.Paths [] [] c

/-! ### The walk as a deduplication of the visited entries -/

theorem walkFiles_dedup (env : Env) (es : List WalkEntry) :
    (∀ e ∈ es, e.err = none) →
    ∀ (uploadItems : List UploadItem) (md5s : List String) (c : CLI),
      walkFiles env es (uploadItems, md5s, c) =
        (none,
          (uploadItems ++ (dedup env c.FileHash es).map (fun p => UploadItem.FileUploadItem p.1),
           md5s ++ (dedup env c.FileHash es).map (fun p => p.2),
           { c with FileHash := ledgerAfter env c.FileHash es })) := by
  induction es with
  | nil => intro _ uploadItems md5s c; simp [walkFiles, dedup, ledgerAfter]
  | cons e es ih =>
    intro herr uploadItems md5s c
    have he : e.err = none := herr e (List.mem_cons_self _ _)
    have ih1 := ih (fun x hx => herr x (List.mem_cons_of_mem _ hx))
    by_cases hreg : e.regular = true
    · cases hr : env.readFile e.name with
      | none =>
        simp [walkFiles, he, hreg, NeedUpload, hr, ih1, dedup, ledgerAfter, entryHash]
      | some bytes =>
        by_cases hm : String.mk (sprintfHex (env.md5sum bytes)) ∈ c.FileHash
        · simp [walkFiles, he, hreg, NeedUpload, hr, ih1, dedup, ledgerAfter, entryHash, hm,
            Finset.insert_eq_of_mem hm]
        · simp [walkFiles, he, hreg, NeedUpload, hr, ih1, dedup, ledgerAfter, entryHash, hm]
    · simp [walkFiles, he, hreg, ih1, dedup, ledgerAfter, entryHash]

theorem ledgerAfter_append (env : Env) (es1 es2 : List WalkEntry) :
    ∀ L : Finset String,
      ledgerAfter env L (es1 ++ es2) = ledgerAfter env (ledgerAfter env L es1) es2 := by
  induction es1 with
  | nil => intro L; rfl
  | cons e es ih =>
    intro L
    cases h : entryHash env e <;> simp [ledgerAfter, h, ih]

theorem dedup_append (env : Env) (es1 es2 : List WalkEntry) :
    ∀ L : Finset String,
      dedup env L (es1 ++ es2) = dedup env L es1 ++ dedup env (ledgerAfter env L es1) es2 := by
  induction es1 with
  | nil => intro L; rfl
  | cons e es ih =>
    intro L
    cases h : entryHash env e with
    | none => simp [dedup, ledgerAfter, h, ih]
    | some x =>
      by_cases hm : x ∈ L
      · simp [dedup, ledgerAfter, h, ih, hm, Finset.insert_eq_of_mem hm]
      · simp [dedup, ledgerAfter, h, ih, hm]

theorem emitted_zero (env : Env) (L : Finset String) (e : WalkEntry) (es : List WalkEntry) :
    emitted env L (e :: es) 0 =
      match entryHash env e with
      | none => false
      | some h => decide (h ∉ L) := by
  cases h : entryHash env e <;> simp [emitted, h]

theorem emitted_succ (env : Env) (L : Finset String) (e : WalkEntry) (es : List WalkEntry)
    (k : Nat) :
    emitted env L (e :: es) (k + 1) =
      emitted env (match entryHash env e with | none => L | some x => insert x L) es k := by
  cases hk : (es[k]?).bind (entryHash env) with
  | none => simp [emitted, hk]
  | some h =>
    cases he : entryHash env e with
    | none => simp [emitted, hk, he]
    | some x =>
      simp only [emitted, List.getElem?_cons_succ, hk, List.take_succ_cons, List.map_cons, he,
        List.mem_cons, Finset.mem_insert, Option.some.injEq]
      by_cases h1 : h = x <;> by_cases h2 : h ∈ L <;> simp [h1, h2]

theorem dedup_eq_filter (env : Env) (es : List WalkEntry) :
    ∀ L : Finset String,
      dedup env L es =
        ((List.range es.length).filter (emitted env L es)).filterMap
          (fun k => (es[k]?).bind (fun e => (entryHash env e).map (fun h => (e.name, h)))) := by
  induction es with
  | nil => intro L; rfl
  | cons e es ih =>
    intro L
    have hcomp : (emitted env L (e :: es) ∘ Nat.succ) =
        emitted env (match entryHash env e with | none => L | some x => insert x L) es := by
      funext k
      exact emitted_succ env L e es k
    have hcomp2 : ((fun k => ((e :: es)[k]?).bind
          (fun e => (entryHash env e).map (fun h => (e.name, h)))) ∘ Nat.succ) =
        (fun k => (es[k]?).bind (fun e => (entryHash env e).map (fun h => (e.name, h)))) := by
      funext k
      simp
    rw [List.length_cons, List.range_succ_eq_map, List.filter_cons, List.filter_map, hcomp,
      emitted_zero]
    cases he : entryHash env e with
    | none =>
      simp only [dedup, he, Bool.false_eq_true, if_false, List.filterMap_map]
      rw [ih L, hcomp2]
    | some x =>
      by_cases hm : x ∈ L
      · simp only [dedup, he, hm, if_true, not_true_eq_false, decide_False, Bool.false_eq_true,
          if_false, List.filterMap_map, Finset.insert_eq_of_mem hm]
        rw [ih L, hcomp2]
      · simp only [dedup, he, hm, if_false, not_false_eq_true, decide_True, if_true,
          List.filterMap_cons, List.getElem?_cons_zero, Option.some_bind, Option.map_some',
          List.filterMap_map]
        rw [ih (insert x L), hcomp2]

theorem emitted_hash (env : Env) (L : Finset String) (es : List WalkEntry) (k : Nat)
    (h : emitted env L es k = true) :
    ∃ e x, es[k]? = some e ∧ entryHash env e = some x := by
  unfold emitted at h
  cases he : es[k]? with
  | none => simp [he] at h
  | some e =>
    cases hx : entryHash env e with
    | none => simp [he, hx] at h
    | some x => exact ⟨e, x, rfl, hx⟩

/-! ### Items and hashes stay aligned -/

theorem forall₂_getElem? {α β : Type} {R : α → β → Prop} {l1 : List α} {l2 : List β}
    (h : List.Forall₂ R l1 l2) :
    ∀ (i : Nat) (a : α), l1[i]? = some a → ∃ b, l2[i]? = some b ∧ R a b := by
  induction h with
  | nil => intro i a ha; simp at ha
  | cons hr _ ih =>
    intro i a ha
    cases i with
    | zero =>
      simp only [List.getElem?_cons_zero, Option.some.injEq] at ha
      subst ha
      exact ⟨_, by simp, hr⟩
    | succ i =>
      simp only [List.getElem?_cons_succ] at ha
      simpa using ih i a ha

theorem forall₂_snoc {α β : Type} {R : α → β → Prop} {l1 : List α} {l2 : List β} {a : α}
    {b : β} (h : List.Forall₂ R l1 l2) (hab : R a b) :
    List.Forall₂ R (l1 ++ [a]) (l2 ++ [b]) :=
  List.rel_append h (List.Forall₂.cons hab List.Forall₂.nil)

theorem walkFiles_aligned (env : Env) (es : List WalkEntry) :
    ∀ (uploadItems : List UploadItem) (md5s : List String) (c : CLI),
      List.Forall₂ (Aligned env) uploadItems md5s →
      List.Forall₂ (Aligned env) (walkFiles env es (uploadItems, md5s, c)).2.1
        (walkFiles env es (uploadItems, md5s, c)).2.2.1 := by
  induction es with
  | nil => intro _ _ _ h; exact h
  | cons e es ih =>
    intro uploadItems md5s c hal
    cases he : e.err with
    | some err => simp only [walkFiles, he]; exact hal
    | none =>
      by_cases hreg : e.regular = true
      · rcases hn : NeedUpload env c e.name with ⟨⟨b, md5⟩, c1⟩
        cases b
        · simp only [walkFiles, he, hreg, if_true, hn]
          exact ih _ _ _ hal
        · simp only [walkFiles, he, hreg, if_true, hn]
          apply ih
          apply forall₂_snoc hal
          have hn1 : (NeedUpload env c e.name).1 = (true, md5) := by rw [hn]
          cases hr : env.readFile e.name with
          | none => simp [NeedUpload, hr] at hn
          | some bytes =>
            refine ⟨bytes, c, hr, ?_, hn1⟩
            by_cases hm : String.mk (sprintfHex (env.md5sum bytes)) ∈ c.FileHash
            · simp [NeedUpload, hr, hm] at hn
            · simp [NeedUpload, hr, hm] at hn
              exact hn.1.symm
      · simp only [walkFiles, he, hreg]
        exact ih _ _ _ hal

theorem findLoop_aligned (env : Env) (args : List String) :
    ∀ (uploadItems : List UploadItem) (md5s : List String) (c : CLI),
      List.Forall₂ (Aligned env) uploadItems md5s →
      ∀ (items : List UploadItem) (hashes : List String),
        (findLoop env args (uploadItems, md5s, c)).1 = Result.ok (items, hashes) →
        List.Forall₂ (Aligned env) items hashes := by
  induction args with
  | nil =>
    intro uploadItems md5s c hal items hashes hok
    simp only [findLoop, Result.ok.injEq, Prod.mk.injEq] at hok
    rw [← hok.1, ← hok.2]
    exact hal
  | cons arg args ih =>
    intro uploadItems md5s c hal items hashes hok
    by_cases hp : (HasPrefix arg "http://" || HasPrefix arg "https://") = true
    · cases h1 : env.newRequestErr arg with
      | some err => simp [findLoop, hp, h1] at hok
      | none =>
        cases h2 : setBasicAuth c { url := arg, basicAuth := none, header := [] } with
        | none => simp [findLoop, hp, h1, h2] at hok
        | some r1 =>
          cases h3 : addHeaders c.RequestHeaders r1 with
          | none => simp [findLoop, hp, h1, h2, h3] at hok
          | some r =>
            simp only [findLoop, hp, if_true, h1, h2, h3] at hok
            have hurl : Aligned env (UploadItem.HTTPUploadItem r) "" := rfl
            exact ih _ _ _ (forall₂_snoc hal hurl) items hashes hok
    · have hw := walkFiles_aligned env (env.walk arg) uploadItems md5s c hal
      rcases hres : walkFiles env (env.walk arg) (uploadItems, md5s, c) with ⟨r, a, b, c1⟩
      rw [hres] at hw
      cases r with
      | some err => simp [findLoop, hp, hres] at hok
      | none =>
        simp only [findLoop, hp, hres] at hok
        exact ih a b c1 hw items hashes hok

theorem leBytes_length (n x : Nat) : (leBytes n x).length = n := by
  induction n generalizing x with
  | zero => rfl
  | succ n ih => simp [leBytes, ih]

theorem leBytes_lt (n x : Nat) : ∀ b ∈ leBytes n x, b < 256 := by
  induction n generalizing x with
  | zero => simp [leBytes]
  | succ n ih =>
    intro b hb
    simp only [leBytes, List.mem_cons] at hb
    rcases hb with h | h
    · omega
    · exact ih _ b h

theorem md5Sum_ok (msg : List Nat) :
    (md5Sum msg).length = 16 ∧ ∀ b ∈ md5Sum msg, b < 256 := by
  unfold md5Sum
  rcases (List.foldl md5Block (0x67452301, 0xefcdab89, 0x98badcfe, 0x10325476)
    (blocks 64 ((md5Pad msg).length / 64) (md5Pad msg))) with ⟨a, b, c, d⟩
  constructor
  · simp only [List.length_append, leBytes_length]
  · intro x hx
    simp only [List.mem_append] at hx
    rcases hx with ((h | h) | h) | h <;> exact leBytes_lt _ _ x h

theorem md5Sum_abc :
    md5Sum [] = [212, 29, 140, 217, 143, 0, 178, 4, 233, 128, 9, 152, 236, 248, 66, 126] ∧
    String.mk (sprintfHex (md5Sum [97, 98, 99])) = "900150983cd24fb0d6963f7d28e17f72" := by
  decide

theorem scenarioEnv_digest : DigestOK scenarioEnv := fun bytes => md5Sum_ok bytes

theorem hash_ne_empty (env : Env) (hd : DigestOK env) (bytes : List Nat) :
    String.mk (sprintfHex (env.md5sum bytes)) ≠ "" := by
  intro h
  have h1 : (sprintfHex (env.md5sum bytes)).length = 0 := by
    have := congrArg String.length h
    simpa using this
  rw [sprintfHex_length, (hd bytes).1] at h1
  omega

theorem dispatch_frame (env : Env) (c c1 : CLI) (h : Frame c c1) (items : List UploadItem) :
    dispatch env c1 items = dispatch env c items := by
  unfold Frame at h
  rw [h]
  rfl

/-- C3: when `findUploadItems` returns without error, the items and the hashes have the same
length and are aligned by index: the hash of a URL item is the empty string, the hash of a
file item for path p is the non-empty hex digest of p's content, as `NeedUpload` returned it
for p. `upload` hands exactly these two sequences to the remote call and to the reporting
pass. -/
theorem findUploadItems_aligned (env : Env) (c : CLI) (items : List UploadItem)
    (md5s : List String) (hd : DigestOK env)
    (hok : (findUploadItems env c).1 = Result.ok (items, md5s)) :
    items.length = md5s.length ∧
    (∀ (i : Nat) (r : Request),
      items[i]? = some (UploadItem.HTTPUploadItem r) → md5s[i]? = some "") ∧
    (∀ (i : Nat) (p : String), items[i]? = some (UploadItem.FileUploadItem p) →
      ∃ bytes, env.readFile p = some bytes ∧
        md5s[i]? = some (String.mk (sprintfHex (env.md5sum bytes))) ∧
        String.mk (sprintfHex (env.md5sum bytes)) ≠ "" ∧
        ∃ c0, (NeedUpload env c0 p).1 = (true, String.mk (sprintfHex (env.md5sum bytes)))) ∧
    (∀ results, c.Paths ≠ [] → items ≠ [] → env.oauthErr = none → env.photosErr = none →
      (dispatch env c items).1 = (results, none) →
      ((upload env c).1, (upload env c).2.1) =
        reportLoop env (env.openCache c.CacheName) items md5s 0 results
          { stderr := ("The following " ++ toString items.length ++
              " items will be uploaded:") :: listing env 0 items,
            stdout := [],
            calls := [(dispatch env c items).2],
            cacheOpened := true,
            appended := [] }) := by
  have hal : List.Forall₂ (Aligned env) items md5s :=
    findLoop_aligned env c.Paths [] [] c List.Forall₂.nil items md5s hok
  refine ⟨hal.length_eq, ?_, ?_, ?_⟩
  · intro i r hi
    obtain ⟨b, hb, hR⟩ := forall₂_getElem? hal i _ hi
    have hR1 : b = "" := hR
    rw [hb, hR1]
  · intro i p hi
    obtain ⟨b, hb, bytes, c0, h1, h2, h3⟩ := forall₂_getElem? hal i _ hi
    subst h2
    exact ⟨bytes, h1, hb, hash_ne_empty env hd bytes, c0, h3⟩
  · intro results hp hne ho hph hdisp
    have hfr0 := findUploadItems_frame env c
    rcases hfi : findUploadItems env c with ⟨r, c1⟩
    rw [hfi] at hok hfr0
    have hfr : Frame c c1 := hfr0
    simp only at hok
    subst hok
    have hlen : ¬ c.Paths.length = 0 := by
      intro h; exact hp (List.length_eq_zero.1 h)
    have hlen2 : ¬ items.length = 0 := by
      intro h; exact hne (List.length_eq_zero.1 h)
    have hcache : c1.CacheName = c.CacheName := hfr.flags.2.2.2.1
    rcases hd2 : dispatch env c items with ⟨⟨res, err⟩, call⟩
    rw [hd2] at hdisp
    simp only [Prod.mk.injEq] at hdisp
    obtain ⟨h1, h2⟩ := hdisp
    subst h1 h2
    simp only [upload, hlen, if_false, hfi, hlen2, ho, hph, dispatch_frame env c c1 hfr, hd2,
      hcache, Effects.none]

theorem findUploadItems_aligned_witness :
    DigestOK scenarioEnv ∧
    (findUploadItems scenarioEnv scenarioCLI).1 =
      Result.ok
        ([UploadItem.FileUploadItem "/tmp/dirA/a.jpg", UploadItem.FileUploadItem "/tmp/dirA/c.jpg"],
         ["5289df737df57326fcdd22597afb1fac", "fba282cd5faca1f7619e4b7969a27f66"]) ∧
    ([UploadItem.FileUploadItem "/tmp/dirA/a.jpg",
        UploadItem.FileUploadItem "/tmp/dirA/c.jpg"].length =
      ["5289df737df57326fcdd22597afb1fac", "fba282cd5faca1f7619e4b7969a27f66"].length) :=
  ⟨scenarioEnv_digest, by decide,
    (findUploadItems_aligned scenarioEnv scenarioCLI _ _ scenarioEnv_digest (by decide)).1⟩

/-! ### The reporting pass -/

theorem reportLoop_spec (env : Env) (f : Bool) (uploadItems : List UploadItem)
    (md5s : List String) (rs : List AddResult) :
    ∀ (i : Nat) (eff : Effects),
      i + rs.length ≤ uploadItems.length → i + rs.length ≤ md5s.length →
      ∃ lines : List String, lines.length = rs.length ∧
        reportLoop env f uploadItems md5s i rs eff =
          (Result.ok (),
            { eff with
              stdout := eff.stdout ++ lines,
              appended := eff.appended ++ (if f then persisted (md5s.drop i) rs else []) }) := by
  induction rs with
  | nil =>
    intro i eff _ _
    refine ⟨[], rfl, ?_⟩
    cases f <;> simp [reportLoop, persisted]
  | cons r rs ih =>
    intro i eff h1 h2
    simp only [List.length_cons] at h1 h2
    have hi1 : i < uploadItems.length := by omega
    have hi2 : i < md5s.length := by omega
    have hitem : uploadItems[i]? = some uploadItems[i] := List.getElem?_eq_getElem hi1
    have hmd5 : md5s[i]? = some md5s[i] := List.getElem?_eq_getElem hi2
    have hdrop : md5s.drop i = md5s[i] :: md5s.drop (i + 1) := List.drop_eq_getElem_cons hi2
    cases hr : r.Error with
    | some e =>
      obtain ⟨lines, hl, heq⟩ := ih (i + 1)
        { eff with stdout := eff.stdout ++
            ["#" ++ toString (i + 1) ++ ": " ++ env.describe uploadItems[i] ++ ": " ++ e ++ "\n"] }
        (by omega) (by omega)
      refine ⟨("#" ++ toString (i + 1) ++ ": " ++ env.describe uploadItems[i] ++ ": " ++ e ++ "\n") :: lines, by simp [hl], ?_⟩
      simp only [reportLoop, hitem, hr, heq, hdrop, persisted]
      cases f <;> simp
    | none =>
      cases f with
      | false =>
        obtain ⟨lines, hl, heq⟩ := ih (i + 1)
          { eff with stdout := eff.stdout ++
              ["#" ++ toString (i + 1) ++ ": " ++ env.describe uploadItems[i] ++ ": OK\n"] }
          (by omega) (by omega)
        refine ⟨("#" ++ toString (i + 1) ++ ": " ++ env.describe uploadItems[i] ++ ": OK\n") :: lines, by simp [hl], ?_⟩
        simp [reportLoop, hitem, hr, heq]
      | true =>
        by_cases hne : md5s[i] = ""
        · obtain ⟨lines, hl, heq⟩ := ih (i + 1)
            { eff with stdout := eff.stdout ++
                ["#" ++ toString (i + 1) ++ ": " ++ env.describe uploadItems[i] ++ ": OK\n"] }
            (by omega) (by omega)
          refine ⟨("#" ++ toString (i + 1) ++ ": " ++ env.describe uploadItems[i] ++ ": OK\n") :: lines, by simp [hl], ?_⟩
          simp [reportLoop, hitem, hr, heq, hmd5, hne, hdrop, persisted]
        · cases hdec : DecodeString md5s[i].toList with
          | none =>
            obtain ⟨lines, hl, heq⟩ := ih (i + 1)
              { eff with stdout := eff.stdout ++
                  ["#" ++ toString (i + 1) ++ ": " ++ env.describe uploadItems[i] ++ ": OK\n"] }
              (by omega) (by omega)
            refine ⟨("#" ++ toString (i + 1) ++ ": " ++ env.describe uploadItems[i] ++ ": OK\n") :: lines, by simp [hl], ?_⟩
            simp only [reportLoop, hitem, hr, hmd5, ne_eq, hne, not_false_eq_true, if_true, hdec,
              heq, hdrop, persisted, and_self, Option.getD_none, Option.getD_some]
            simp
          | some bytes =>
            obtain ⟨lines, hl, heq⟩ := ih (i + 1)
              { eff with
                stdout := eff.stdout ++
                  ["#" ++ toString (i + 1) ++ ": " ++ env.describe uploadItems[i] ++ ": OK\n"],
                appended := eff.appended ++ bytes }
              (by omega) (by omega)
            refine ⟨("#" ++ toString (i + 1) ++ ": " ++ env.describe uploadItems[i] ++ ": OK\n") :: lines, by simp [hl], ?_⟩
            simp only [reportLoop, hitem, hr, hmd5, ne_eq, hne, not_false_eq_true, if_true, hdec,
              heq, hdrop, persisted, and_self, Option.getD_none, Option.getD_some]
            simp

/-- C4: in the reporting pass, for items, hashes and results aligned by position, the bytes
appended to the ledger store are exactly the decoded hashes, in index order, of the positions
whose result has no error and whose hash is non-empty and valid hex; nothing is appended
when the store could not be opened; one line is printed per result in every case, and the
pass ends normally. -/
theorem reportLoop_persists (env : Env) (f : Bool) (uploadItems : List UploadItem)
    (md5s : List String) (results : List AddResult) (eff : Effects)
    (h1 : results.length = uploadItems.length) (h2 : md5s.length = uploadItems.length) :
    ∃ lines : List String, lines.length = results.length ∧
      reportLoop env f uploadItems md5s 0 results eff =
        (Result.ok (),
          { eff with
            stdout := eff.stdout ++ lines,
            appended := eff.appended ++ (if f then persisted md5s results else []) }) := by
  have h := reportLoop_spec env f uploadItems md5s results 0 eff (by omega) (by omega)
  simpa using h

theorem reportLoop_persists_witness :
    reportResults.length = reportItems.length ∧ reportHashes.length = reportItems.length ∧
    persisted reportHashes reportResults = [10, 255] ∧
    ∃ lines : List String, lines.length = reportResults.length ∧
      reportLoop scenarioEnv true reportItems reportHashes 0 reportResults Effects.none =
        (Result.ok (),
          { Effects.none with
            stdout := Effects.none.stdout ++ lines,
            appended := Effects.none.appended ++
              (if true = true then persisted reportHashes reportResults else []) }) :=
  ⟨by decide, by decide, by decide,
    reportLoop_persists scenarioEnv true reportItems reportHashes reportResults Effects.none
      (by decide) (by decide)⟩

/-! ### Hex encoding, decoding and the ledger store -/

theorem NeedUpload_hash (env : Env) (c : CLI) (name : String) (bytes : List Nat)
    (hr : env.readFile name = some bytes) :
    (NeedUpload env c name).1.2 = String.mk (sprintfHex (env.md5sum bytes)) := by
  by_cases hm : String.mk (sprintfHex (env.md5sum bytes)) ∈ c.FileHash <;>
    simp [NeedUpload, hr, hm]

theorem reportLoop_one (env : Env) (uploadItems : List UploadItem) (md5s : List String)
    (i : Nat) (eff : Effects) (item : UploadItem) (md5 : String) (digest : List Nat)
    (h1 : uploadItems[i]? = some item) (h2 : md5s[i]? = some md5) (h3 : md5 ≠ "")
    (h4 : DecodeString md5.toList = some digest) :
    reportLoop env true uploadItems md5s i [⟨none⟩] eff =
      (Result.ok (),
        { eff with
          stdout := eff.stdout ++ ["#" ++ toString (i + 1) ++ ": " ++ env.describe item ++ ": OK\n"],
          appended := eff.appended ++ digest }) := by
  simp only [reportLoop, h1, h2, ne_eq, h3, not_false_eq_true, if_true, h4]

set_option maxRecDepth 100000 in
theorem scenarioA_appended :
    (upload scenarioEnv scenarioCLI).2.1.appended = md5Sum bytesX ++ md5Sum bytesY ∧
    (upload scenarioEnv scenarioCLI).2.1.appended.length = 2 * 16 := by
  constructor <;> decide

/-- C5: the hash `NeedUpload` returns for a readable file is 32 hex characters, and
hex.DecodeString turns it back into the raw 16-byte digest, which re-encodes to the same
hash. So reporting a successful file item with that hash appends exactly its 16 digest
bytes, a store made of 16-byte digests stays one, and `NeedUpload` answers (false, hash)
for any file with the same bytes once the hash is in the ledger. In Scenario A exactly two
digests (32 bytes) are appended. -/
theorem hash_roundtrip (env : Env) (hd : DigestOK env) (c : CLI) (name : String)
    (bytes : List Nat) (hr : env.readFile name = some bytes) :
    (NeedUpload env c name).1.2 = String.mk (sprintfHex (env.md5sum bytes)) ∧
    (NeedUpload env c name).1.2.length = 32 ∧
    (∀ ch ∈ (NeedUpload env c name).1.2.toList, ch ∈ "0123456789abcdef".toList) ∧
    DecodeString (NeedUpload env c name).1.2.toList = some (env.md5sum bytes) ∧
    (env.md5sum bytes).length = 16 ∧
    (∀ (uploadItems : List UploadItem) (md5s : List String) (i : Nat) (eff : Effects),
      uploadItems[i]? = some (UploadItem.FileUploadItem name) →
      md5s[i]? = some (NeedUpload env c name).1.2 →
      (reportLoop env true uploadItems md5s i [⟨none⟩] eff).2.appended =
          eff.appended ++ env.md5sum bytes ∧
        ∀ digests : List (List Nat), (∀ d ∈ digests, d.length = 16) →
          eff.appended = digests.flatten →
          (reportLoop env true uploadItems md5s i [⟨none⟩] eff).2.appended =
              (digests ++ [env.md5sum bytes]).flatten ∧
            ∀ d ∈ digests ++ [env.md5sum bytes], d.length = 16) ∧
    (∀ (c2 : CLI) (name2 : String), env.readFile name2 = some bytes →
      String.mk (sprintfHex (env.md5sum bytes)) ∈ c2.FileHash →
      NeedUpload env c2 name2 = ((false, (NeedUpload env c name).1.2), c2)) ∧
    (upload scenarioEnv scenarioCLI).2.1.appended = md5Sum bytesX ++ md5Sum bytesY ∧
    (upload scenarioEnv scenarioCLI).2.1.appended.length = 2 * 16 := by
  have hh := NeedUpload_hash env c name bytes hr
  have hdec : DecodeString (String.mk (sprintfHex (env.md5sum bytes))).toList =
      some (env.md5sum bytes) := DecodeString_sprintfHex _ (hd bytes).2
  rw [hh]
  refine ⟨rfl, ?_, ?_, hdec, (hd bytes).1, ?_, ?_, scenarioA_appended⟩
  · show (sprintfHex (env.md5sum bytes)).length = 32
    rw [sprintfHex_length, (hd bytes).1]
  · exact sprintfHex_mem _
  · intro uploadItems md5s i eff h1 h2
    have hone := reportLoop_one env uploadItems md5s i eff _ _ _ h1 h2
      (hash_ne_empty env hd bytes) hdec
    rw [hone]
    refine ⟨rfl, ?_⟩
    intro digests hlen happ
    constructor
    · simp [happ]
    · intro d hmem
      rcases List.mem_append.1 hmem with h | h
      · exact hlen d h
      · rw [List.mem_singleton.1 h]; exact (hd bytes).1
  · intro c2 name2 hr2 hm
    simp [NeedUpload, hr2, hm]

theorem hash_roundtrip_witness :
    DigestOK scenarioEnv ∧ scenarioEnv.readFile "/tmp/dirA/a.jpg" = some bytesX ∧
    (NeedUpload scenarioEnv scenarioCLI "/tmp/dirA/a.jpg").1.2 =
      "5289df737df57326fcdd22597afb1fac" ∧
    DecodeString (NeedUpload scenarioEnv scenarioCLI "/tmp/dirA/a.jpg").1.2.toList =
      some (scenarioEnv.md5sum bytesX) :=
  ⟨scenarioEnv_digest, by decide, by decide,
    (hash_roundtrip scenarioEnv scenarioEnv_digest scenarioCLI "/tmp/dirA/a.jpg" bytesX
      (by decide)).2.2.2.1⟩

/-! ### URL inputs -/

theorem SplitN_of_mem (s : List Char) (sep : Char) (h : sep ∈ s) :
    SplitN s sep =
      [s.takeWhile (fun ch => ch != sep), (s.dropWhile (fun ch => ch != sep)).tail] := by
  unfold SplitN
  rw [List.span_eq_take_drop]
  cases hd : s.dropWhile (fun ch => ch != sep) with
  | nil =>
    exfalso
    have hall := List.dropWhile_eq_nil_iff.1 hd sep h
    simp at hall
  | cons x rest => rfl

theorem SplitN_of_not_mem (s : List Char) (sep : Char) (h : sep ∉ s) :
    SplitN s sep = [s] := by
  unfold SplitN
  rw [List.span_eq_take_drop]
  have hall : ∀ x ∈ s, (fun ch => ch != sep) x = true := by
    intro x hx
    have : x ≠ sep := fun hxs => h (hxs ▸ hx)
    simpa using this
  rw [List.dropWhile_eq_nil_iff.2 hall, List.takeWhile_eq_self_iff.2 hall]

theorem setBasicAuth_ok (c : CLI)
    (hauth : c.RequestBasicAuth = "" ∨ ':' ∈ c.RequestBasicAuth.toList) (u : String) :
    setBasicAuth c { url := u, basicAuth := none, header := [] } =
      some { url := u, basicAuth := credentials c.RequestBasicAuth, header := [] } := by
  by_cases he : c.RequestBasicAuth = ""
  · simp [setBasicAuth, he, credentials]
  · have hm : ':' ∈ c.RequestBasicAuth.toList := hauth.resolve_left he
    simp only [setBasicAuth, ne_eq, he, not_false_eq_true, if_true, SplitN_of_mem _ _ hm,
      List.getElem?_cons_zero, List.getElem?_cons_succ, credentials, if_false, beforeColon,
      afterColon]

theorem addHeaders_ok (hs : List String) (hhdr : ∀ h ∈ hs, ':' ∈ h.toList) :
    ∀ r : Request,
      addHeaders hs r = some { r with header := r.header ++ hs.map headerPair } := by
  induction hs with
  | nil => intro r; simp [addHeaders]
  | cons h hs ih =>
    intro r
    have hex := ih (fun x hx => hhdr x (List.mem_cons_of_mem _ hx))
    have hm := hhdr h (List.mem_cons_self _ _)
    simp only [addHeaders, SplitN_of_mem _ _ hm, List.getElem?_cons_zero,
      List.getElem?_cons_succ, hex, List.append_assoc, List.singleton_append, List.map_cons,
      headerPair, beforeColon, afterColon]

/-! ### Resolution of a mixed list of URLs and file-system roots -/

theorem visitedOf_append (env : Env) (a b : List String) :
    visitedOf env (a ++ b) = visitedOf env a ++ visitedOf env b := by
  simp [visitedOf, List.filter_append, List.flatMap_append]

theorem visitedOf_cons_url (env : Env) (u : String) (rest : List String)
    (h : isURL u = true) : visitedOf env (u :: rest) = visitedOf env rest := by
  simp [visitedOf, List.filter_cons, h]

theorem visitedOf_cons_root (env : Env) (a : String) (rest : List String)
    (h : isURL a = false) : visitedOf env (a :: rest) = env.walk a ++ visitedOf env rest := by
  simp [visitedOf, List.filter_cons, h]

theorem findLoop_resolve (env : Env) (c : CLI) (args rest : List String) :
    (∀ arg ∈ args, isURL arg = true →
      env.newRequestErr arg = none ∧
        (c.RequestBasicAuth = "" ∨ ':' ∈ c.RequestBasicAuth.toList) ∧
        ∀ h ∈ c.RequestHeaders, ':' ∈ h.toList) →
    (∀ arg ∈ args, isURL arg = false → ∀ e ∈ env.walk arg, e.err = none) →
    ∀ (uploadItems : List UploadItem) (md5s : List String) (L : Finset String),
      findLoop env (args ++ rest) (uploadItems, md5s, { c with FileHash := L }) =
        findLoop env rest
          (uploadItems ++ (resolve env c L args).map Prod.fst,
           md5s ++ (resolve env c L args).map Prod.snd,
           { c with FileHash := ledgerAfter env L (visitedOf env args) }) := by
  induction args with
  | nil => intro _ _ uploadItems md5s L; simp [resolve, visitedOf, ledgerAfter]
  | cons arg args ih =>
    intro hreq hwalk uploadItems md5s L
    have ih1 := ih (fun x hx => hreq x (List.mem_cons_of_mem _ hx))
      (fun x hx => hwalk x (List.mem_cons_of_mem _ hx))
    cases hu : isURL arg with
    | true =>
      obtain ⟨h1, h2, h3⟩ := hreq arg (List.mem_cons_self _ _) hu
      have hp : (HasPrefix arg "http://" || HasPrefix arg "https://") = true := hu
      have hsa := setBasicAuth_ok { c with FileHash := L } h2 arg
      have hah := addHeaders_ok c.RequestHeaders h3
      simp only [List.cons_append, findLoop, hp, if_true, h1, hsa, hah]
      change findLoop env (args ++ rest) _ = _
      rw [ih1, visitedOf_cons_url env arg args hu]
      simp [resolve, hu, requestFor]
    | false =>
      have hp : (HasPrefix arg "http://" || HasPrefix arg "https://") = false := hu
      have hw := walkFiles_dedup env (env.walk arg) (hwalk arg (List.mem_cons_self _ _) hu)
        uploadItems md5s { c with FileHash := L }
      simp only [List.cons_append, findLoop, hp, hw]
      change findLoop env (args ++ rest) _ = _
      rw [ih1, visitedOf_cons_root env arg args hu, ledgerAfter_append]
      simp [resolve, hu, List.map_append, Function.comp_def]

theorem emitted_append_left (env : Env) (L : Finset String) (es post : List WalkEntry)
    (i : Nat) (hi : i < es.length) :
    emitted env L (es ++ post) i = emitted env L es i := by
  unfold emitted
  rw [List.getElem?_append_left hi, List.take_append_of_le_length (Nat.le_of_lt hi)]

theorem emitted_offset (env : Env) (pre : List WalkEntry) :
    ∀ (L : Finset String) (es post : List WalkEntry) (i : Nat), i < es.length →
      emitted env L (pre ++ es ++ post) (pre.length + i) =
        emitted env (ledgerAfter env L pre) es i := by
  induction pre with
  | nil =>
    intro L es post i hi
    simpa [ledgerAfter] using emitted_append_left env L es post i hi
  | cons e pre ih =>
    intro L es post i hi
    have hidx : (e :: pre).length + i = (pre.length + i) + 1 := by
      simp only [List.length_cons]; omega
    rw [hidx, List.cons_append, List.cons_append, emitted_succ, ih _ es post i hi]
    cases he : entryHash env e <;> simp [ledgerAfter, he]

theorem dedup_contribution (env : Env) (c : CLI) (L : Finset String)
    (pre post : List WalkEntry) (arg : String) (hu : isURL arg = false) :
    (dedup env (ledgerAfter env L pre) (env.walk arg)).map
        (fun p => (UploadItem.FileUploadItem p.1, p.2)) =
      contributionAt env c L (pre ++ env.walk arg ++ post) pre.length arg := by
  rw [dedup_eq_filter, contributionAt]
  simp only [hu, Bool.false_eq_true, if_false, List.map_filterMap]
  have hf : (List.range (env.walk arg).length).filter
        (emitted env (ledgerAfter env L pre) (env.walk arg)) =
      (List.range (env.walk arg).length).filter
        (fun i => emitted env L (pre ++ env.walk arg ++ post) (pre.length + i)) := by
    apply List.filter_congr
    intro i hi
    exact (emitted_offset env pre L (env.walk arg) post i (List.mem_range.1 hi)).symm
  rw [hf]
  apply List.filterMap_congr
  intro i _
  cases h1 : (env.walk arg)[i]? with
  | none => simp
  | some e => cases h2 : entryHash env e <;> simp [h2]

theorem resolve_contributions (env : Env) (c : CLI) (L : Finset String) (post : List String)
    (args : List String) :
    ∀ pre : List String,
      resolve env c (ledgerAfter env L (visitedOf env pre)) args =
        (List.range args.length).flatMap (fun j =>
          match args[j]? with
          | none => []
          | some arg =>
            contributionAt env c L (visitedOf env (pre ++ args ++ post))
              (visitedOf env (pre ++ args.take j)).length arg) := by
  induction args with
  | nil => intro pre; rfl
  | cons a rest ih =>
    intro pre
    have ih1 := ih (pre ++ [a])
    rw [List.length_cons, List.range_succ_eq_map, List.flatMap_cons, List.flatMap_map]
    simp only [List.getElem?_cons_zero, List.take_zero, List.append_nil, Function.comp_def,
      Nat.succ_eq_add_one, List.getElem?_cons_succ, List.take_succ_cons]
    have hshift : ∀ j : Nat, pre ++ a :: rest.take j = (pre ++ [a]) ++ rest.take j := by
      intro j; simp
    have hall : pre ++ a :: rest ++ post = (pre ++ [a]) ++ rest ++ post := by simp
    simp only [hshift, hall]
    cases hu : isURL a with
    | true =>
      have hv : visitedOf env (pre ++ [a]) = visitedOf env pre := by
        rw [visitedOf_append, visitedOf_cons_url env a [] hu]; simp [visitedOf]
      rw [hv] at ih1
      simp only [resolve, hu, if_true, ih1, contributionAt, hv]
      rfl
    | false =>
      have hv : visitedOf env (pre ++ [a]) = visitedOf env pre ++ env.walk a := by
        rw [visitedOf_append, visitedOf_cons_root env a [] hu]; simp [visitedOf]
      have hvall : visitedOf env ((pre ++ [a]) ++ rest ++ post) =
          visitedOf env pre ++ env.walk a ++ visitedOf env (rest ++ post) := by
        rw [List.append_assoc (pre ++ [a]), visitedOf_append, hv]
      rw [hv, ledgerAfter_append] at ih1
      simp only [resolve, hu, Bool.false_eq_true, if_false, ih1]
      rw [dedup_contribution env c L (visitedOf env pre) (visitedOf env (rest ++ post)) a hu,
        hvall]

theorem resolve_files (env : Env) (c : CLI) (args : List String) :
    ∀ L : Finset String,
      (resolve env c L args).filter (fun p => isFileItem p.1) =
        (dedup env L (visitedOf env args)).map
          (fun p => (UploadItem.FileUploadItem p.1, p.2)) := by
  induction args with
  | nil => intro L; rfl
  | cons a rest ih =>
    intro L
    cases hu : isURL a with
    | true =>
      rw [visitedOf_cons_url env a rest hu]
      simp only [resolve, hu, if_true]
      rw [List.filter_cons_of_neg (by simp [isFileItem])]
      exact ih L
    | false =>
      rw [visitedOf_cons_root env a rest hu, dedup_append]
      simp only [resolve, hu, Bool.false_eq_true, if_false, List.filter_append, ih,
        List.map_append]
      congr 1
      apply List.filter_eq_self.2
      intro p hp
      obtain ⟨q, _, hq⟩ := List.mem_map.1 hp
      rw [← hq]
      rfl

theorem eta_FileHash (c : CLI) : { c with FileHash := c.FileHash } = c := by
  cases c; rfl

theorem findUploadItems_resolve (env : Env) (c : CLI)
    (hreq : ∀ arg ∈ c.Paths, isURL arg = true →
      env.newRequestErr arg = none ∧
        (c.RequestBasicAuth = "" ∨ ':' ∈ c.RequestBasicAuth.toList) ∧
        ∀ h ∈ c.RequestHeaders, ':' ∈ h.toList)
    (hwalk : ∀ arg ∈ c.Paths, isURL arg = false → ∀ e ∈ env.walk arg, e.err = none) :
    findUploadItems env c =
      (Result.ok
        ((resolve env c c.FileHash c.Paths).map Prod.fst,
         (resolve env c c.FileHash c.Paths).map Prod.snd),
       { c with FileHash := ledgerAfter env c.FileHash (visited env c) }) := by
  have h := findLoop_resolve env c c.Paths [] hreq hwalk [] [] c.FileHash
  rw [eta_FileHash, List.append_nil] at h
  rw [findUploadItems, h]
  simp [findLoop, visited]

theorem resolve_eq_contributions (env : Env) (c : CLI) :
    resolve env c c.FileHash c.Paths =
      (List.range c.Paths.length).flatMap (contribution env c) := by
  have h := resolve_contributions env c c.FileHash [] c.Paths []
  simp only [visitedOf, List.filter_nil, List.flatMap_nil, ledgerAfter, List.nil_append,
    List.append_nil] at h
  rw [h]
  rfl

/-- C2: when every URL input can be turned into a request and no walk reports an error, the
output of `findUploadItems` is the concatenation, in input order, of what each input
contributes; a file-system root contributes, in walk order, exactly those of its entries
that are readable regular files whose content hash is neither in the ledger the invocation
started with nor the hash of an entry visited earlier under any root. So the file items of
the output, with their hashes, are exactly the emitted entries of the whole invocation, in
walk order across all roots, also when URL inputs stand between the roots. -/
theorem findUploadItems_dedup (env : Env) (c : CLI)
    (hreq : ∀ arg ∈ c.Paths, isURL arg = true →
      env.newRequestErr arg = none ∧
        (c.RequestBasicAuth = "" ∨ ':' ∈ c.RequestBasicAuth.toList) ∧
        ∀ h ∈ c.RequestHeaders, ':' ∈ h.toList)
    (hwalk : ∀ arg ∈ c.Paths, isURL arg = false → ∀ e ∈ env.walk arg, e.err = none) :
    (findUploadItems env c).1 =
      Result.ok
        (((List.range c.Paths.length).flatMap (contribution env c)).map Prod.fst,
         ((List.range c.Paths.length).flatMap (contribution env c)).map Prod.snd) ∧
    (∀ (items : List UploadItem) (md5s : List String),
      (findUploadItems env c).1 = Result.ok (items, md5s) →
      (items.zip md5s).filter (fun p => isFileItem p.1) =
        ((List.range (visited env c).length).filter
            (emitted env c.FileHash (visited env c))).filterMap
          (fun k => ((visited env c)[k]?).bind (fun e =>
            (entryHash env e).map (fun h => (UploadItem.FileUploadItem e.name, h))))) := by
  have hres := findUploadItems_resolve env c hreq hwalk
  constructor
  · rw [hres, resolve_eq_contributions]
  · intro items md5s hok
    rw [hres] at hok
    simp only [Result.ok.injEq, Prod.mk.injEq] at hok
    rw [← List.zip_of_prod hok.1 hok.2, resolve_files, dedup_eq_filter, List.map_filterMap]
    apply List.filterMap_congr
    intro k _
    unfold visited
    cases h1 : (visitedOf env c.Paths)[k]? with
    | none => simp
    | some e => cases h2 : entryHash env e <;> simp [h2]

set_option maxRecDepth 100000 in
theorem findUploadItems_dedup_witness :
    (∀ arg ∈ mixedCLI.Paths, isURL arg = true →
      scenarioEnv.newRequestErr arg = none ∧
        (mixedCLI.RequestBasicAuth = "" ∨ ':' ∈ mixedCLI.RequestBasicAuth.toList) ∧
        ∀ h ∈ mixedCLI.RequestHeaders, ':' ∈ h.toList) ∧
    (∀ arg ∈ mixedCLI.Paths, isURL arg = false →
      ∀ e ∈ scenarioEnv.walk arg, e.err = none) ∧
    (findUploadItems scenarioEnv mixedCLI).1 = Result.ok (mixedItems, mixedHashes) :=
  ⟨by decide, by decide,
    (findUploadItems_dedup scenarioEnv mixedCLI (by decide) (by decide)).1.trans (by decide)⟩

theorem contribution_url (env : Env) (c : CLI) (pre rest : List String) (u : String)
    (hpaths : c.Paths = pre ++ u :: rest) (hu : isURL u = true) :
    contribution env c pre.length = [(UploadItem.HTTPUploadItem (requestFor c u), "")] := by
  have hget : c.Paths[pre.length]? = some u := by
    rw [hpaths, List.getElem?_append_right (Nat.le_refl _)]
    simp
  simp only [contribution, hget, contributionAt, hu, if_true]

/-- C6 (amended): let the basic-auth credential (if set) and every header string contain a
colon, and let `u` be any input that begins with "http://" or "https://", anywhere in a
list of URLs and file-system roots. When every URL input is accepted by http.NewRequest
and no walk reports an error, the output is what the inputs before `u` contribute, then
exactly one remote-fetch item for `u` with the empty hash, then what the inputs after `u`
contribute, whatever the ledger holds and however often `u` occurs; and resolving the
inputs up to and including `u` leaves the same ledger as resolving the inputs before it.
The request carries the URL, the credential split at its first colon and each header split
at its first colon, both sides trimmed. When http.NewRequest rejects `u` (the inputs
before it being fine), `findUploadItems` returns the error "Could not parse URL: "
followed by the cause, and no item. -/
theorem findUploadItems_urls (env : Env) (c : CLI)
    (hauth : c.RequestBasicAuth = "" ∨ ':' ∈ c.RequestBasicAuth.toList)
    (hhdr : ∀ h ∈ c.RequestHeaders, ':' ∈ h.toList)
    (pre rest : List String) (u : String) (hpaths : c.Paths = pre ++ u :: rest)
    (hu : isURL u = true) :
    ((∀ arg ∈ c.Paths, isURL arg = true → env.newRequestErr arg = none) →
      (∀ arg ∈ c.Paths, isURL arg = false → ∀ e ∈ env.walk arg, e.err = none) →
      (findUploadItems env c).1 =
          Result.ok
            (((List.range pre.length).flatMap (contribution env c) ++
                (UploadItem.HTTPUploadItem (requestFor c u), "") ::
                (List.range rest.length).flatMap
                  (fun j => contribution env c (pre.length + 1 + j))).map Prod.fst,
             ((List.range pre.length).flatMap (contribution env c) ++
                (UploadItem.HTTPUploadItem (requestFor c u), "") ::
                (List.range rest.length).flatMap
                  (fun j => contribution env c (pre.length + 1 + j))).map Prod.snd) ∧
        (findUploadItems env { c with Paths := pre ++ [u] }).2.FileHash =
          (findUploadItems env { c with Paths := pre }).2.FileHash) ∧
    (∀ err : String,
      (∀ arg ∈ pre, isURL arg = true → env.newRequestErr arg = none) →
      (∀ arg ∈ pre, isURL arg = false → ∀ e ∈ env.walk arg, e.err = none) →
      env.newRequestErr u = some err →
      (findUploadItems env c).1 = Result.error ("Could not parse URL: " ++ err)) := by
  constructor
  · intro hreq hwalk
    have hreq1 : ∀ arg ∈ c.Paths, isURL arg = true →
        env.newRequestErr arg = none ∧
          (c.RequestBasicAuth = "" ∨ ':' ∈ c.RequestBasicAuth.toList) ∧
          ∀ h ∈ c.RequestHeaders, ':' ∈ h.toList :=
      fun arg ha hua => ⟨hreq arg ha hua, hauth, hhdr⟩
    constructor
    · rw [findUploadItems_resolve env c hreq1 hwalk, resolve_eq_contributions]
      have hlen : c.Paths.length = pre.length + (rest.length + 1) := by
        rw [hpaths]; simp
      have hfun : (fun j => contribution env c (pre.length + (j + 1))) =
          (fun j => contribution env c (pre.length + 1 + j)) := by
        funext j
        rw [Nat.add_assoc, Nat.add_comm 1 j]
      rw [hlen, List.range_add, List.flatMap_append, List.flatMap_map,
        List.range_succ_eq_map, List.flatMap_cons, List.flatMap_map, Nat.add_zero,
        contribution_url env c pre rest u hpaths hu]
      simp only [Nat.succ_eq_add_one, hfun, List.singleton_append]
    · have hmem1 : ∀ arg ∈ pre ++ [u], arg ∈ c.Paths := by
        intro arg ha
        rw [hpaths]
        rcases List.mem_append.1 ha with h | h
        · exact List.mem_append_left _ h
        · rw [List.mem_singleton.1 h]
          exact List.mem_append_right _ (List.mem_cons_self _ _)
      have hmem2 : ∀ arg ∈ pre, arg ∈ c.Paths :=
        fun arg ha => hmem1 arg (List.mem_append_left _ ha)
      have h1 := findUploadItems_resolve env { c with Paths := pre ++ [u] }
        (fun arg ha hua => hreq1 arg (hmem1 arg ha) hua)
        (fun arg ha hua => hwalk arg (hmem1 arg ha) hua)
      have h2 := findUploadItems_resolve env { c with Paths := pre }
        (fun arg ha hua => hreq1 arg (hmem2 arg ha) hua)
        (fun arg ha hua => hwalk arg (hmem2 arg ha) hua)
      rw [h1, h2]
      simp only [visited, visitedOf_append, visitedOf_cons_url env u [] hu]
      simp [visitedOf]
  · intro err hreq hwalk herr
    have hreq1 : ∀ arg ∈ pre, isURL arg = true →
        env.newRequestErr arg = none ∧
          (c.RequestBasicAuth = "" ∨ ':' ∈ c.RequestBasicAuth.toList) ∧
          ∀ h ∈ c.RequestHeaders, ':' ∈ h.toList :=
      fun arg ha hua => ⟨hreq arg ha hua, hauth, hhdr⟩
    have h := findLoop_resolve env c pre (u :: rest) hreq1 hwalk [] [] c.FileHash
    rw [eta_FileHash] at h
    have hp : (HasPrefix u "http://" || HasPrefix u "https://") = true := hu
    rw [findUploadItems, hpaths, h]
    simp only [findLoop, hp, if_true, herr]

set_option maxRecDepth 100000 in
theorem findUploadItems_urls_witness :
    (mixedCLI.RequestBasicAuth = "" ∨ ':' ∈ mixedCLI.RequestBasicAuth.toList) ∧
    (∀ h ∈ mixedCLI.RequestHeaders, ':' ∈ h.toList) ∧
    mixedCLI.Paths =
      ["http://example.com/a.jpg", "/tmp/dirA"] ++
        "https://example.com/b.jpg" :: ["/tmp/dirA", "http://example.com/a.jpg"] ∧
    isURL "https://example.com/b.jpg" = true ∧
    (findUploadItems scenarioEnv mixedCLI).1 = Result.ok (mixedItems, mixedHashes) ∧
    (findUploadItems scenarioEnv
        { mixedCLI with Paths := ["http://example.com/a.jpg", "/tmp/dirA"] ++
            ["https://example.com/b.jpg"] }).2.FileHash =
      (findUploadItems scenarioEnv
        { mixedCLI with Paths := ["http://example.com/a.jpg", "/tmp/dirA"] }).2.FileHash :=
  ⟨by decide, by decide, by decide, by decide,
    (((findUploadItems_urls scenarioEnv mixedCLI (by decide) (by decide)
      ["http://example.com/a.jpg", "/tmp/dirA"] ["/tmp/dirA", "http://example.com/a.jpg"]
      "https://example.com/b.jpg" (by decide) (by decide)).1 (by decide) (by decide)).1).trans
      (by decide),
    ((findUploadItems_urls scenarioEnv mixedCLI (by decide) (by decide)
      ["http://example.com/a.jpg", "/tmp/dirA"] ["/tmp/dirA", "http://example.com/a.jpg"]
      "https://example.com/b.jpg" (by decide) (by decide)).1 (by decide) (by decide)).2⟩


/-- C6 (as stated, refuted): the input "http://example.com/a\tb.jpg" begins with "http://",
but http.NewRequest rejects it (a control character), so `findUploadItems` returns the error
"Could not parse URL: ..." and no item at all. -/
theorem url_input_without_item :
    HasPrefix "http://example.com/a\tb.jpg" "http://" = true ∧
    ctlCLI.Paths = ["http://example.com/a\tb.jpg"] ∧
    Result.isError (findUploadItems scenarioEnv ctlCLI).1 = true := by
  decide

/-- C10 (failing input): with the basic-auth credential "user", which has no colon, the URL
branch of `findUploadItems` indexes `kv[1]` on a one-element slice and panics; so does a
header string without a colon. -/
theorem findUploadItems_panics :
    (findUploadItems scenarioEnv noColonCLI).1 = Result.panic ∧
    (findUploadItems scenarioEnv
      { noColonCLI with RequestBasicAuth := "", RequestHeaders := ["X-Test"] }).1 =
      Result.panic := by
  decide

/-! ### Dispatch and batch-level errors -/

theorem reportLoop_calls (env : Env) (f : Bool) (uploadItems : List UploadItem)
    (md5s : List String) (rs : List AddResult) :
    ∀ (i : Nat) (eff : Effects),
      (reportLoop env f uploadItems md5s i rs eff).2.calls = eff.calls := by
  induction rs with
  | nil => intro i eff; rfl
  | cons r rs ih =>
    intro i eff
    cases hitem : uploadItems[i]? with
    | none => simp only [reportLoop, hitem]
    | some item =>
      cases hr : r.Error with
      | some e => simp only [reportLoop, hitem, hr, ih]
      | none =>
        cases f with
        | false => simp [reportLoop, hitem, hr, ih]
        | true =>
          cases hmd5 : md5s[i]? with
          | none => simp only [reportLoop, hitem, hr, hmd5, if_true]
          | some md5 =>
            by_cases hne : md5 = ""
            · simp [reportLoop, hitem, hr, hmd5, hne, ih]
            · cases hdec : DecodeString md5.toList with
              | none =>
                simp only [reportLoop, hitem, hr, hmd5, ne_eq, hne, not_false_eq_true, if_true,
                  hdec, ih]
              | some bytes =>
                simp only [reportLoop, hitem, hr, hmd5, ne_eq, hne, not_false_eq_true, if_true,
                  hdec, ih]

theorem findUploadItems_nil (env : Env) (c : CLI) (h : c.Paths = []) :
    findUploadItems env c = (Result.ok ([], []), c) := by
  simp [findUploadItems, h, findLoop]

theorem paths_ne_nil (env : Env) (c : CLI) (items : List UploadItem) (md5s : List String)
    (hok : (findUploadItems env c).1 = Result.ok (items, md5s)) (hne : items ≠ []) :
    ¬ c.Paths.length = 0 := by
  intro h
  rw [findUploadItems_nil env c (List.length_eq_zero.1 h)] at hok
  simp only [Result.ok.injEq, Prod.mk.injEq] at hok
  exact hne hok.1.symm

theorem upload_calls (env : Env) (c : CLI) (items : List UploadItem) (md5s : List String)
    (hok : (findUploadItems env c).1 = Result.ok (items, md5s)) (hne : items ≠ [])
    (ho : env.oauthErr = none) (hph : env.photosErr = none) :
    (upload env c).2.1.calls = [(dispatch env c items).2] := by
  have hp := paths_ne_nil env c items md5s hok hne
  have hfr0 := findUploadItems_frame env c
  rcases hfi : findUploadItems env c with ⟨r, c1⟩
  rw [hfi] at hok hfr0
  have hfr : Frame c c1 := hfr0
  simp only at hok
  subst hok
  have hlen2 : ¬ items.length = 0 := fun h => hne (List.length_eq_zero.1 h)
  rcases hd2 : dispatch env c items with ⟨⟨res, err⟩, call⟩
  cases err with
  | some e =>
    simp only [upload, hp, if_false, hfi, hlen2, ho, hph, dispatch_frame env c c1 hfr, hd2]
  | none =>
    simp only [upload, hp, if_false, hfi, hlen2, ho, hph, dispatch_frame env c c1 hfr, hd2,
      reportLoop_calls]

/-- C7: for every pair of flags and every non-empty resolved batch, once the client and the
service exist, `upload` makes exactly one remote call, with the whole batch: add-to-album
with `AlbumTitle` when it is non-empty (whatever `NewAlbum` is), otherwise create-album
with `NewAlbum` when that is non-empty, otherwise add-to-library. -/
theorem upload_dispatch (env : Env) (c : CLI) (items : List UploadItem) (md5s : List String)
    (hok : (findUploadItems env c).1 = Result.ok (items, md5s)) (hne : items ≠ [])
    (ho : env.oauthErr = none) (hph : env.photosErr = none) :
    (c.AlbumTitle ≠ "" →
      (upload env c).2.1.calls = [RemoteCall.AddToAlbum c.AlbumTitle items]) ∧
    (c.AlbumTitle = "" → c.NewAlbum ≠ "" →
      (upload env c).2.1.calls = [RemoteCall.CreateAlbum c.NewAlbum items]) ∧
    (c.AlbumTitle = "" → c.NewAlbum = "" →
      (upload env c).2.1.calls = [RemoteCall.AddToLibrary items]) := by
  rw [upload_calls env c items md5s hok hne ho hph]
  refine ⟨?_, ?_, ?_⟩
  · intro h; simp [dispatch, h]
  · intro h1 h2; simp [dispatch, h1, h2]
  · intro h1 h2; simp [dispatch, h1, h2]

/-- C8: when the add-to-album or create-album call returns an error, `upload` returns that
error, prints nothing on standard output, does not open the ledger store and appends
nothing to it, whatever results came with the error. -/
theorem upload_batch_error (env : Env) (c : CLI) (items : List UploadItem)
    (md5s : List String) (err : String)
    (hok : (findUploadItems env c).1 = Result.ok (items, md5s)) (hne : items ≠ [])
    (ho : env.oauthErr = none) (hph : env.photosErr = none)
    (herr : (c.AlbumTitle ≠ "" ∧ (env.AddToAlbum c.AlbumTitle items).2 = some err) ∨
      (c.AlbumTitle = "" ∧ c.NewAlbum ≠ "" ∧ (env.CreateAlbum c.NewAlbum items).2 = some err)) :
    (upload env c).1 = Result.error err ∧ (upload env c).2.1.stdout = [] ∧
      (upload env c).2.1.cacheOpened = false ∧ (upload env c).2.1.appended = [] := by
  have hp := paths_ne_nil env c items md5s hok hne
  have hfr0 := findUploadItems_frame env c
  rcases hfi : findUploadItems env c with ⟨r, c1⟩
  rw [hfi] at hok hfr0
  have hfr : Frame c c1 := hfr0
  simp only at hok
  subst hok
  have hlen2 : ¬ items.length = 0 := fun h => hne (List.length_eq_zero.1 h)
  have hd2 : ∃ res call, dispatch env c items = ((res, some err), call) := by
    rcases herr with ⟨h1, h2⟩ | ⟨h1, h2, h3⟩
    · refine ⟨(env.AddToAlbum c.AlbumTitle items).1,
        RemoteCall.AddToAlbum c.AlbumTitle items, ?_⟩
      simp only [dispatch, ne_eq, h1, not_false_eq_true, if_true]
      rw [← h2]
    · refine ⟨(env.CreateAlbum c.NewAlbum items).1,
        RemoteCall.CreateAlbum c.NewAlbum items, ?_⟩
      simp only [dispatch, ne_eq, h1, not_true_eq_false, if_false, h2, not_false_eq_true, if_true]
      rw [← h3]
  obtain ⟨res, call, hd3⟩ := hd2
  simp only [upload, hp, if_false, hfi, hlen2, ho, hph, dispatch_frame env c c1 hfr, hd3,
    Effects.none, and_self]

theorem nothing_in_ne (s : String) : "Nothing to upload in " ++ s ≠ "Nothing to upload" := by
  intro h
  have h1 := congrArg String.length h
  rw [String.length_append] at h1
  have h2 : "Nothing to upload in ".length = 21 := by decide
  have h3 : "Nothing to upload".length = 17 := by decide
  omega

/-- C9: for a non-empty input list whose resolution succeeds with zero items, `upload`
returns the error "Nothing to upload in " followed by the inputs joined by ", ", makes no
remote call and neither opens nor writes the ledger store; that error differs from the
error "Nothing to upload" which `upload` returns, before anything else, for an empty input
list. -/
theorem upload_nothing (env : Env) (c : CLI) (md5s : List String) (hp : c.Paths ≠ [])
    (hok : (findUploadItems env c).1 = Result.ok ([], md5s)) :
    (upload env c).1 = Result.error ("Nothing to upload in " ++ Join c.Paths ", ") ∧
    (upload env c).2.1 = Effects.none ∧
    Effects.none.calls = [] ∧ Effects.none.appended = [] ∧ Effects.none.cacheOpened = false ∧
    ("Nothing to upload in " ++ Join c.Paths ", " ≠ "Nothing to upload") ∧
    (∀ c0 : CLI, c0.Paths = [] →
      upload env c0 = (Result.error "Nothing to upload", Effects.none, c0)) := by
  have hlen : ¬ c.Paths.length = 0 := fun h => hp (List.length_eq_zero.1 h)
  have hfr0 := findUploadItems_frame env c
  rcases hfi : findUploadItems env c with ⟨r, c1⟩
  rw [hfi] at hok hfr0
  have hfr : Frame c c1 := hfr0
  simp only at hok
  subst hok
  refine ⟨?_, ?_, rfl, rfl, rfl, nothing_in_ne _, ?_⟩
  · simp only [upload, hlen, if_false, hfi, List.length_nil, if_true, hfr.flags.1]
  · simp only [upload, hlen, if_false, hfi, List.length_nil, if_true]
  · intro c0 h0
    simp [upload, h0]

set_option maxRecDepth 100000 in
theorem upload_dispatch_witness :
    (findUploadItems scenarioEnv albumCLI).1 = Result.ok (scenarioItems, scenarioHashes) ∧
    scenarioItems ≠ [] ∧ scenarioEnv.oauthErr = none ∧ scenarioEnv.photosErr = none ∧
    albumCLI.AlbumTitle ≠ "" ∧ albumCLI.NewAlbum ≠ "" ∧
    (upload scenarioEnv albumCLI).2.1.calls = [RemoteCall.AddToAlbum "Holiday" scenarioItems] :=
  ⟨by decide, by decide, rfl, rfl, by decide, by decide,
    (upload_dispatch scenarioEnv albumCLI scenarioItems scenarioHashes (by decide) (by decide)
      rfl rfl).1 (by decide)⟩

set_option maxRecDepth 100000 in
theorem upload_batch_error_witness :
    (findUploadItems failingEnv albumCLI).1 = Result.ok (scenarioItems, scenarioHashes) ∧
    scenarioItems ≠ [] ∧ failingEnv.oauthErr = none ∧ failingEnv.photosErr = none ∧
    (albumCLI.AlbumTitle ≠ "" ∧
      (failingEnv.AddToAlbum albumCLI.AlbumTitle scenarioItems).2 = some "album not found") ∧
    (upload failingEnv albumCLI).1 = Result.error "album not found" ∧
    (upload failingEnv albumCLI).2.1.stdout = [] ∧
    (upload failingEnv albumCLI).2.1.cacheOpened = false ∧
    (upload failingEnv albumCLI).2.1.appended = [] :=
  ⟨by decide, by decide, rfl, rfl, ⟨by decide, rfl⟩,
    upload_batch_error failingEnv albumCLI scenarioItems scenarioHashes "album not found"
      (by decide) (by decide) rfl rfl (Or.inl ⟨by decide, rfl⟩)⟩

set_option maxRecDepth 100000 in
theorem upload_nothing_witness :
    emptyDirCLI.Paths ≠ [] ∧
    (findUploadItems scenarioEnv emptyDirCLI).1 = Result.ok ([], []) ∧
    (upload scenarioEnv emptyDirCLI).1 = Result.error "Nothing to upload in /tmp/dirB" ∧
    scenarioBCLI.Paths ≠ [] ∧
    (findUploadItems scenarioEnv scenarioBCLI).1 = Result.ok ([], []) ∧
    (upload scenarioEnv scenarioBCLI).1 = Result.error "Nothing to upload in /tmp/dirA" :=
  ⟨by decide, by decide,
    (upload_nothing scenarioEnv emptyDirCLI [] (by decide) (by decide)).1.trans (by decide),
    by decide, by decide,
    (upload_nothing scenarioEnv scenarioBCLI [] (by decide) (by decide)).1.trans (by decide)⟩

end Gpup
